import Mathlib

/-!
SystemZ register information: frame lowering.

A shallow embedding of `lib/Target/SystemZ/SystemZRegisterInfo.cpp`.

* Machine integers are mathematical integers with explicit wrap-around:
  `toUInt64`, `toInt64` and `toInt32` are the conversions the C++ performs
  implicitly at assignments and at mixed signed/unsigned arithmetic.
* A basic block is the list of its instructions, an iterator into it is a
  position (`MBB.length` is `MBB.end()`).  Inserting before an iterator leaves
  the iterator on the instruction it pointed to, so the position grows by one.
* `assert` is modelled as enabled: a failing assertion makes the function
  return `none`.
-/

namespace SystemZ

/-! ## Machine integers -/

/-- Conversion to `uint64_t`: the value modulo `2^64`. -/
def toUInt64 (x : Int) : Nat := (x % 2 ^ 64).toNat

/-- Conversion to `int64_t`: the representative of `x` modulo `2^64` in
`[-2^63, 2^63)`. -/
def toInt64 (x : Int) : Int := (x + 2 ^ 63) % 2 ^ 64 - 2 ^ 63

/-- Conversion to `int` (32 bits): the representative of `x` modulo `2^32` in
`[-2^31, 2^31)`. -/
def toInt32 (x : Int) : Int := (x + 2 ^ 31) % 2 ^ 32 - 2 ^ 31

/-! ## Registers, opcodes, operands, instructions -/

/-- Physical registers.  The enumeration itself is generated
(`SystemZGenRegisterNames.inc`); the constructors are the registers the source
file names, `PSW` is the condition-code register its comment names, and
`other n` stands for every remaining register of the enumeration. -/
inductive Reg where
  | R6D | R7D | R8D | R9D | R10D | R11D | R12D | R13D | R14D | R15D
  | F1 | F3 | F5 | F7
  | PSW
  | other (n : Nat)
  deriving DecidableEq, Repr

/-- Instruction opcodes.  The constructors are the opcodes the source file
names; `other n` stands for every remaining opcode. -/
inductive Opcode where
  | ADD64ri16 | MOV64rr | MOV64mr | MOV64mrm | MOV64rmm | MOV64rm | RET
  | ADJCALLSTACKUP | ADJCALLSTACKDOWN
  | other (n : Nat)
  deriving DecidableEq, Repr

/-- Debug location attached to an instruction. -/
inductive DebugLoc where
  | unknown
  | loc (n : Nat)
  deriving DecidableEq, Repr

/-- One operand of a machine instruction: a register (with its define,
implicit and dead flags), an immediate (`int64_t`), a frame index (`int`), or
an operand of any other kind. -/
inductive MachineOperand where
  | Register (reg : Reg) (isDef : Bool) (isImp : Bool) (isDead : Bool)
  | Immediate (imm : Int)
  | FrameIndex (index : Int)
  | Other (n : Nat)
  deriving DecidableEq, Repr

namespace MachineOperand

/-- Test `isFI()`. -/
def isFI : MachineOperand → Bool
  | FrameIndex _ => true
  | _ => false

/-- Test `isImm()`. -/
def isImm : MachineOperand → Bool
  | Immediate _ => true
  | _ => false

/-- Test for an implicit register operand. -/
def isImplicit : MachineOperand → Bool
  | Register _ _ imp _ => imp
  | _ => false

/-- Accessor `getImm()`; it asserts `isImm()`. -/
def getImm : MachineOperand → Option Int
  | Immediate v => some v
  | _ => none

/-- Mutator `ChangeToRegister(Reg, isDef)`: the operand becomes a plain
register operand, every other flag cleared. -/
def ChangeToRegister (_op : MachineOperand) (r : Reg) (isDef : Bool) : MachineOperand :=
  Register r isDef false false

/-- Mutator `ChangeToImmediate(ImmVal)`. -/
def ChangeToImmediate (_op : MachineOperand) (v : Int) : MachineOperand :=
  Immediate v

/-- Mutator `setIsDead()` on a register operand. -/
def setIsDead : MachineOperand → MachineOperand
  | Register r d imp _ => Register r d imp true
  | op => op

end MachineOperand

/-- A machine instruction: opcode, operand list, debug location. -/
structure MachineInstr where
  opcode : Opcode
  operands : List MachineOperand
  debugLoc : DebugLoc
  deriving DecidableEq, Repr

/-- Modelled from the spec: the instruction descriptor table behind `TII.get`
is generated and not in the source.  The stack-pointer add has one incidental
condition-flag output, the `PSW` register (the source marks it dead at operand
index 3); the register copy has none. -/
def implicitDefs : Opcode → List Reg
  | .ADD64ri16 => [.PSW]
  | _ => []

/-- Replace the element at position `i` of a list by its image under `f`. -/
def updateAt {α : Type} (f : α → α) : List α → Nat → List α
  | [], _ => []
  | x :: xs, 0 => f x :: xs
  | x :: xs, i + 1 => x :: updateAt f xs i

/-- Insert `x` before position `i` (at the end when `i` is `l.length`). -/
def insertBefore {α : Type} (l : List α) (i : Nat) (x : α) : List α :=
  l.take i ++ x :: l.drop i

namespace MachineInstr

/-- Method `addOperand`: an explicit operand is placed after the explicit
operands already there, in front of the implicit ones. -/
def addOperand (MI : MachineInstr) (op : MachineOperand) : MachineInstr :=
  { MI with operands :=
      MI.operands.takeWhile (fun o => !o.isImplicit) ++
        op :: MI.operands.dropWhile (fun o => !o.isImplicit) }

/-- Builder step `.addReg(Reg)`: a register use. -/
def addReg (MI : MachineInstr) (r : Reg) : MachineInstr :=
  MI.addOperand (.Register r false false false)

/-- Builder step `.addImm(Val)`. -/
def addImm (MI : MachineInstr) (v : Int) : MachineInstr :=
  MI.addOperand (.Immediate v)

/-- Statement `MI->getOperand(i).setIsDead()`. -/
def setOperandDead (MI : MachineInstr) (i : Nat) : MachineInstr :=
  { MI with operands := updateAt MachineOperand.setIsDead MI.operands i }

/-- Immediate values among the operands of an instruction, in order. -/
def imms (MI : MachineInstr) : List Int :=
  MI.operands.filterMap MachineOperand.getImm

end MachineInstr

/-- Call `BuildMI(MBB, I, DL, TII.get(Opc), DestReg)`, the instruction it
creates: the defined destination register followed by the implicit defs of the
descriptor.  (Its insertion before `I` is done by the caller with
`insertBefore`.) -/
def BuildMI (DL : DebugLoc) (Opc : Opcode) (DestReg : Reg) : MachineInstr :=
  MachineInstr.addOperand
    { opcode := Opc
      operands := (implicitDefs Opc).map (fun r => MachineOperand.Register r true true false)
      debugLoc := DL }
    (.Register DestReg true false false)

/-- Sum of the immediates carried by a list of instructions. -/
def immSum (l : List MachineInstr) : Int :=
  (l.map (fun MI => MI.imms.sum)).sum

/-- Debug location of the instruction at position `MBBI`, unknown at the end
of the block. -/
def debugLocAt (MBB : List MachineInstr) (MBBI : Nat) : DebugLoc :=
  match MBB.get? MBBI with
  | some MI => MI.debugLoc
  | none => DebugLoc.unknown

/-! ## emitSPUpdate -/

/-- Constant `Chunk = (1LL << 15) - 1`, the largest single-instruction
immediate. -/
def Chunk : Nat := 2 ^ 15 - 1

/-- The stack-pointer adjustment `ADD64ri16 R15D, R15D, v`: `R15D` defined,
`R15D` used, the immediate `v`, and the implicit def of `PSW` marked dead. -/
def spAdjust (DL : DebugLoc) (v : Int) : MachineInstr :=
  { opcode := .ADD64ri16
    operands := [.Register .R15D true false false, .Register .R15D false false false,
      .Immediate v, .Register .PSW true true true]
    debugLoc := DL }

/-- The instruction built in one iteration of the loop of `emitSPUpdate`.  The
conditional `isSub ? -(int64_t)ThisVal : ThisVal` has type `uint64_t` and is
converted to the `int64_t` parameter of `addImm`. -/
def spAdd (DL : DebugLoc) (isSub : Bool) (ThisVal : Nat) : MachineInstr :=
  (((BuildMI DL .ADD64ri16 .R15D).addReg .R15D).addImm
      (toInt64 (if isSub then (toUInt64 (-(toInt64 ThisVal)) : Int) else (ThisVal : Int)))).setOperandDead 3

/-- The loop `while (Offset) { ... }` of `emitSPUpdate`. -/
def emitSPUpdateLoop (DL : DebugLoc) (isSub : Bool)
    (MBB : List MachineInstr) (MBBI : Nat) (Offset : Nat) : List MachineInstr × Nat :=
  if Offset = 0 then (MBB, MBBI)
  else
    let ThisVal := if Offset > Chunk then Chunk else Offset
    emitSPUpdateLoop DL isSub (insertBefore MBB MBBI (spAdd DL isSub ThisVal)) (MBBI + 1)
      (Offset - ThisVal)
termination_by Offset
decreasing_by
  have hc : 0 < Chunk := by decide
  split <;> omega

/-- Function `emitSPUpdate(MBB, MBBI, NumBytes, TII)`: returns the block and
the iterator after the insertions. -/
def emitSPUpdate (MBB : List MachineInstr) (MBBI : Nat) (NumBytes : Int) :
    List MachineInstr × Nat :=
  let isSub : Bool := decide (NumBytes < 0)
  let Offset : Nat := toUInt64 (if isSub then toInt64 (-NumBytes) else NumBytes)
  let DL := debugLocAt MBB MBBI
  emitSPUpdateLoop DL isSub MBB MBBI Offset

/-! ## Functions and their frame description -/

/-- A basic block: its instructions and its live-in registers. -/
structure MachineBasicBlock where
  instrs : List MachineInstr
  liveIns : List Reg
  deriving DecidableEq, Repr

/-- Method `addLiveIn(Reg)`: the register is appended to the live-in list. -/
def MachineBasicBlock.addLiveIn (MBB : MachineBasicBlock) (r : Reg) : MachineBasicBlock :=
  { MBB with liveIns := MBB.liveIns ++ [r] }

/-- The frame description of a function (`MachineFrameInfo`), as far as the
source file reads it: `getObjectOffset` (`int64_t`), `getOffsetAdjustment`
(`int`), `getStackSize` (`uint64_t`), `hasVarSizedObjects`, `hasCalls` and
`getObjectIndexEnd`.  The stack objects of a function are its fixed objects, of
index `-numFixedObjects .. -1`, and its other objects, of index
`0 .. getObjectIndexEnd() - 1`; the source file never reads the number of fixed
objects. -/
structure MachineFrameInfo where
  objectOffset : Int → Int
  offsetAdjustment : Int
  stackSize : Nat
  hasVarSizedObjects : Bool
  hasCalls : Bool
  objectIndexEnd : Int
  numFixedObjects : Nat := 0

/-- Number of stack objects of a function, fixed ones included. -/
def MachineFrameInfo.numObjects (FFI : MachineFrameInfo) : Int :=
  FFI.numFixedObjects + FFI.objectIndexEnd

/-- What the source file reads of the target: `getOffsetOfLocalArea()` of the
target frame info (`int`) and the global option `NoFramePointerElim`. -/
structure TargetMachine where
  offsetOfLocalArea : Int
  NoFramePointerElim : Bool

/-- Bit vector indexed by registers. -/
abbrev BitVector := Reg → Bool

/-- Method `BitVector::set(Idx)`. -/
def BitVector.set (B : BitVector) (r : Reg) : BitVector :=
  fun x => if x = r then true else B x

/-- A machine function: its blocks (the first is the entry block), its frame
description, the callee-saved frame size kept in
`SystemZMachineFunctionInfo`, the physical registers marked used in its
register info, and its target. -/
structure MachineFunction where
  blocks : List MachineBasicBlock
  frameInfo : MachineFrameInfo
  calleeSavedFrameSize : Nat
  usedPhysRegs : BitVector
  target : TargetMachine

/-! ## Register catalog -/

/-- Function `hasFP`. -/
def hasFP (MF : MachineFunction) : Bool :=
  MF.target.NoFramePointerElim || MF.frameInfo.hasVarSizedObjects

/-- Function `getReservedRegs`. -/
def getReservedRegs (MF : MachineFunction) : BitVector :=
  let Reserved : BitVector := fun _ => false
  let Reserved := if hasFP MF then Reserved.set .R11D else Reserved
  let Reserved := Reserved.set .R14D
  let Reserved := Reserved.set .R15D
  Reserved

/-! ## Frame index resolution -/

/-- Function `getFrameIndexOffset`. -/
def getFrameIndexOffset (MF : MachineFunction) (FI : Int) : Int :=
  let MFI := MF.frameInfo
  let Offset : Int := toInt32 (toInt64 (MFI.objectOffset FI + MFI.offsetAdjustment))
  let StackSize : Nat := MFI.stackSize
  -- Fixed objects are really located in the "previous" frame.
  let StackSize : Nat :=
    if FI < 0 then toUInt64 ((StackSize : Int) - MF.calleeSavedFrameSize) else StackSize
  let Offset : Int :=
    toInt32 (toUInt64 ((toUInt64 Offset : Int) +
      toUInt64 ((StackSize : Int) - toUInt64 MF.target.offsetOfLocalArea)))
  -- Skip the register save area if we generated the stack frame.
  let Offset : Int :=
    if StackSize ≠ 0 then toInt32 (Offset - MF.target.offsetOfLocalArea) else Offset
  Offset

/-- The loop `while (!MI.getOperand(i).isFI()) { ++i; assert(i < n); }` of
`eliminateFrameIndex`, run on the operands from position `i` on: the position
of the first frame-index operand, or `none` when an assertion fails (the range
assertion of `getOperand` on an instruction without operands, the assertion of
the loop otherwise). -/
def findFrameIndex : List MachineOperand → Nat → Option Nat
  | [], _ => none
  | op :: ops, i => if op.isFI then some i else findFrameIndex ops (i + 1)

/-- Function `eliminateFrameIndex(II, SPAdj, RS)` on the instruction `MI` of a
function `MF`: the rewritten instruction, or `none` when an assertion fails. -/
def eliminateFrameIndex (MF : MachineFunction) (MI : MachineInstr) (SPAdj : Int) :
    Option MachineInstr :=
  if SPAdj ≠ 0 then none
  else
    match findFrameIndex MI.operands 0 with
    | none => none
    | some i =>
      match MI.operands.get? i with
      | some (.FrameIndex FrameIndex) =>
        let BasePtr : Reg := if hasFP MF then .R11D else .R15D
        let ops := updateAt (fun o => o.ChangeToRegister BasePtr false) MI.operands i
        match ops.get? (i + 1) with
        | some (.Immediate Imm) =>
          let Offset : Int := toInt32 (toInt64 (getFrameIndexOffset MF FrameIndex + Imm))
          some { MI with operands := updateAt (fun o => o.ChangeToImmediate Offset) ops (i + 1) }
        | _ => none
      | _ => none

/-! ## Prologue -/

/-- The test of the skipping loop of `emitPrologue`: the opcode is `MOV64mr` or
`MOV64mrm`. -/
def isCalleeSavedPush (MI : MachineInstr) : Bool :=
  MI.opcode = .MOV64mr || MI.opcode = .MOV64mrm

/-- The loop of `emitPrologue` that skips the callee-saved push instructions,
run from position `MBBI` over the instructions from there on. -/
def skipCalleeSavedPushes : List MachineInstr → Nat → Nat
  | [], MBBI => MBBI
  | MI :: rest, MBBI =>
    if isCalleeSavedPush MI then skipCalleeSavedPushes rest (MBBI + 1) else MBBI

/-- The frame-pointer copy `MOV64rr R11D, R15D`. -/
def fpCopy (DL : DebugLoc) : MachineInstr :=
  { opcode := .MOV64rr
    operands := [.Register .R11D true false false, .Register .R15D false false false]
    debugLoc := DL }

/-- The local `StackSize` of `emitPrologue` and `emitEpilogue`: the stack size
less the callee-saved frame size, in `uint64_t`. -/
def netStackSize (MF : MachineFunction) : Nat :=
  toUInt64 ((MF.frameInfo.stackSize : Int) - MF.calleeSavedFrameSize)

/-- The local `NumBytes` of `emitPrologue` and `emitEpilogue`: `StackSize` less
the local-area offset, in `uint64_t`. -/
def netLocalBytes (MF : MachineFunction) : Nat :=
  toUInt64 ((netStackSize MF : Int) - toUInt64 MF.target.offsetOfLocalArea)

/-- Function `emitPrologue(MF)`; `none` when the function has no entry
block. -/
def emitPrologue (MF : MachineFunction) : Option MachineFunction :=
  match MF.blocks with
  | [] => none
  | MBB :: others =>
    let MBBI : Nat := 0
    let DL := debugLocAt MBB.instrs MBBI
    let StackSize : Nat :=
      toUInt64 ((MF.frameInfo.stackSize : Int) - MF.calleeSavedFrameSize)
    -- Skip the callee-saved push instructions.
    let MBBI := skipCalleeSavedPushes MBB.instrs MBBI
    let DL := if MBBI ≠ MBB.instrs.length then debugLocAt MBB.instrs MBBI else DL
    let NumBytes : Nat := toUInt64 ((StackSize : Int) - toUInt64 MF.target.offsetOfLocalArea)
    let st : List MachineInstr × Nat :=
      if StackSize ≠ 0 then emitSPUpdate MBB.instrs MBBI (toInt64 (-(toInt64 NumBytes)))
      else (MBB.instrs, MBBI)
    if hasFP MF then
      -- Update R11 with the new base value...
      let instrs := insertBefore st.1 st.2 ((BuildMI DL .MOV64rr .R11D).addReg .R15D)
      -- Mark the FramePtr as live-in in every block except the entry.
      some { MF with blocks :=
        { MBB with instrs := instrs } :: others.map (fun B => B.addLiveIn .R11D) }
    else
      some { MF with blocks := { MBB with instrs := st.1 } :: others }

/-! ## Epilogue -/

/-- Modelled from the spec: the instruction descriptors behind `getDesc()` are
generated and not in the source.  The return instruction is a terminator; the
adds, copies, stores, restores and call-frame pseudos the source names are not;
for every other opcode the table `terminators` decides. -/
def isTerminator (terminators : Nat → Bool) (MI : MachineInstr) : Bool :=
  match MI.opcode with
  | .RET => true
  | .other n => terminators n
  | _ => false

/-- The loop of `emitEpilogue` that walks back over the terminators,
`while (MBBI != MBB.begin()) { PI = prior(MBBI); --MBBI;
if (!PI->getDesc().isTerminator()) break; }`, run from position `MBBI`. -/
def skipTerminators (terminators : Nat → Bool) (MBB : List MachineInstr) : Nat → Nat
  | 0 => 0
  | MBBI + 1 =>
    match MBB.get? MBBI with
    | some PI => if !isTerminator terminators PI then MBBI else skipTerminators terminators MBB MBBI
    | none => MBBI

/-- The loop `while (!MI.getOperand(i).isImm()) { ++i; assert(i < n); }` of
`emitEpilogue`, run on the operands from position `i` on: the position of the
first immediate operand, or `none` when an assertion fails. -/
def findImmediate : List MachineOperand → Nat → Option Nat
  | [], _ => none
  | op :: ops, i => if op.isImm then some i else findImmediate ops (i + 1)

/-- Function `emitEpilogue(MF, MBB)`: the block afterwards, or `none` when an
assertion fails (or the block is empty). -/
def emitEpilogue (terminators : Nat → Bool) (MF : MachineFunction) (MBB : MachineBasicBlock) :
    Option MachineBasicBlock :=
  match MBB.instrs.getLast? with
  | none => none
  | some Ret =>
    if Ret.opcode ≠ .RET then none
    else
      let MBBI : Nat := MBB.instrs.length - 1
      let StackSize : Nat :=
        toUInt64 ((MF.frameInfo.stackSize : Int) - MF.calleeSavedFrameSize)
      let NumBytes : Nat := toUInt64 ((StackSize : Int) - toUInt64 MF.target.offsetOfLocalArea)
      -- Skip the final terminator instruction.
      let MBBI := skipTerminators terminators MBB.instrs MBBI
      if MF.calleeSavedFrameSize ≠ 0 then
        match MBB.instrs.get? MBBI with
        | none => none
        | some MI =>
          if ¬ (MI.opcode = .MOV64rmm ∨ MI.opcode = .MOV64rm) then none
          else
            match findImmediate MI.operands 0 with
            | none => none
            | some i =>
              match MI.operands.get? i with
              | some (.Immediate Imm) =>
                let NewImm : Int := toInt64 (toUInt64 ((NumBytes : Int) + toUInt64 Imm))
                let ops := updateAt (fun o => o.ChangeToImmediate NewImm) MI.operands i
                let Patched : MachineInstr := { MI with operands := ops }
                some { MBB with instrs := updateAt (fun _ => Patched) MBB.instrs MBBI }
              | _ => none
      else some MBB

/-! ## Call frame pseudo instructions -/

/-- Function `hasReservedCallFrame`. -/
def hasReservedCallFrame (MF : MachineFunction) : Bool :=
  !MF.frameInfo.hasVarSizedObjects

/-- Function `eliminateCallFramePseudoInstr(MF, MBB, I)`: the block afterwards,
or `none` when an assertion fails (or `I` is not an instruction of the
block). -/
def eliminateCallFramePseudoInstr (MF : MachineFunction) (MBB : MachineBasicBlock) (I : Nat) :
    Option MachineBasicBlock :=
  match MBB.instrs.get? I with
  | none => none
  | some Old =>
    if !hasReservedCallFrame MF then
      match Old.operands.get? 0 with
      | some (.Immediate Imm) =>
        let Amount : Nat := toUInt64 Imm
        if Amount ≠ 0 then none
        else some { MBB with instrs := MBB.instrs.eraseIdx I }
      | _ => none
    else some { MBB with instrs := MBB.instrs.eraseIdx I }

/-! ## Callee-saved registers and the scan before it -/

/-- Function `getCalleeSavedRegs`: the registers of the zero-terminated
array. -/
def getCalleeSavedRegs : List Reg :=
  [.R6D, .R7D, .R8D, .R9D, .R10D, .R11D, .R12D, .R13D, .R14D, .R15D, .F1, .F3, .F5, .F7]

/-- Function `processFunctionBeforeCalleeSavedScan`; `setPhysRegUsed` sets the
bit of the register in the used-register vector of the function. -/
def processFunctionBeforeCalleeSavedScan (MF : MachineFunction) : MachineFunction :=
  let FFI := MF.frameInfo
  let MF1 : MachineFunction :=
    if FFI.hasCalls then { MF with usedPhysRegs := MF.usedPhysRegs.set .R14D } else MF
  if FFI.objectIndexEnd ≠ 0 ∨ FFI.hasVarSizedObjects then
    { MF1 with usedPhysRegs := MF1.usedPhysRegs.set .R15D }
  else MF1

/-! ## Example inputs -/

/-- A store of the callee-saved register `R14D` relative to `R15D`. -/
def savedPush : MachineInstr :=
  { opcode := .MOV64mr
    operands := [.Register .R15D false false false, .Immediate 112, .Other 0,
      .Register .R14D false false false]
    debugLoc := .unknown }

/-- The return instruction, without operands. -/
def retInstr : MachineInstr :=
  { opcode := .RET, operands := [], debugLoc := .unknown }

/-- A function whose whole stack is its callee-saved area: stack size 8,
callee-saved frame size 8, stack objects at offset 0, local area at -160 (the
SystemZ value), frame-pointer elimination enabled, and one block that stores
`R14D` and returns. -/
def savedOnlyFunction : MachineFunction :=
  { blocks := [{ instrs := [savedPush, retInstr], liveIns := [] }]
    frameInfo :=
      { objectOffset := fun _ => 0
        offsetAdjustment := 0
        stackSize := 8
        hasVarSizedObjects := false
        hasCalls := false
        objectIndexEnd := 0 }
    calleeSavedFrameSize := 8
    usedPhysRegs := fun _ => false
    target := { offsetOfLocalArea := -160, NoFramePointerElim := false } }

/-- A function with an empty frame: no stack, nothing saved, local area at
offset 0, frame-pointer elimination enabled. -/
def emptyFrameFunction : MachineFunction :=
  { blocks := []
    frameInfo :=
      { objectOffset := fun _ => 0
        offsetAdjustment := 0
        stackSize := 0
        hasVarSizedObjects := false
        hasCalls := false
        objectIndexEnd := 1 }
    calleeSavedFrameSize := 0
    usedPhysRegs := fun _ => false
    target := { offsetOfLocalArea := 0, NoFramePointerElim := false } }

/-- A load-like instruction whose address is frame index 0 plus the
displacement `2^31`. -/
def farLoad : MachineInstr :=
  { opcode := .MOV64rm
    operands := [.Register .R6D true false false, .FrameIndex 0, .Immediate (2 ^ 31),
      .Other 0]
    debugLoc := .unknown }

/-- The instruction `farLoad` after its frame index is resolved in
`emptyFrameFunction`. -/
def resolvedFarLoad : MachineInstr :=
  { opcode := .MOV64rm
    operands := [.Register .R6D true false false, .Register .R15D false false false,
      .Immediate (-2147483648), .Other 0]
    debugLoc := .unknown }

/-- A function with a variable-sized allocation: stack size 168, callee-saved
frame size 8, local area at -160, an entry block that stores `R14D` and
returns, and a second block with live-in `R6D`. -/
def allocaFunction : MachineFunction :=
  { blocks := [{ instrs := [savedPush, retInstr], liveIns := [] },
      { instrs := [retInstr], liveIns := [.R6D] }]
    frameInfo :=
      { objectOffset := fun _ => 0
        offsetAdjustment := 0
        stackSize := 168
        hasVarSizedObjects := true
        hasCalls := false
        objectIndexEnd := 1 }
    calleeSavedFrameSize := 8
    usedPhysRegs := fun _ => false
    target := { offsetOfLocalArea := -160, NoFramePointerElim := false } }

/-- A restore of the callee-saved register `R14D` relative to `R15D`. -/
def savedPop : MachineInstr :=
  { opcode := .MOV64rm
    operands := [.Register .R14D true false false, .Register .R15D false false false,
      .Immediate 112, .Other 0]
    debugLoc := .unknown }

/-- The restore `savedPop` with its displacement raised by 160. -/
def patchedPop : MachineInstr :=
  { opcode := .MOV64rm
    operands := [.Register .R14D true false false, .Register .R15D false false false,
      .Immediate 272, .Other 0]
    debugLoc := .unknown }

/-- A function whose whole stack is its callee-saved area (stack size 8,
callee-saved frame size 8, local area at -160) and whose single block stores
`R14D`, restores it and returns. -/
def spillOnlyFunction : MachineFunction :=
  { blocks := [{ instrs := [savedPush, savedPop, retInstr], liveIns := [] }]
    frameInfo :=
      { objectOffset := fun _ => 0
        offsetAdjustment := 0
        stackSize := 8
        hasVarSizedObjects := false
        hasCalls := false
        objectIndexEnd := 0 }
    calleeSavedFrameSize := 8
    usedPhysRegs := fun _ => false
    target := { offsetOfLocalArea := -160, NoFramePointerElim := false } }

/-- A function with a stack of `2^20` bytes, nothing saved, local area at
-160. -/
def bigFrameFunction : MachineFunction :=
  { blocks := []
    frameInfo :=
      { objectOffset := fun _ => 0
        offsetAdjustment := 0
        stackSize := 1048576
        hasVarSizedObjects := false
        hasCalls := false
        objectIndexEnd := 1 }
    calleeSavedFrameSize := 0
    usedPhysRegs := fun _ => false
    target := { offsetOfLocalArea := -160, NoFramePointerElim := false } }

/-- A load whose address is frame index 0 with displacement 0. -/
def nearLoad : MachineInstr :=
  { opcode := .MOV64rm
    operands := [.Register .R6D true false false, .FrameIndex 0, .Immediate 0, .Other 0]
    debugLoc := .unknown }

/-- The call-frame setup pseudo with byte amount `n`. -/
def adjCallStackDown (n : Int) : MachineInstr :=
  { opcode := .ADJCALLSTACKDOWN, operands := [.Immediate n], debugLoc := .unknown }

/-- A function whose only stack object is one fixed object (index -1, an
incoming argument at offset 160): no object of non-negative index, no
variable-sized object, no call, no register used yet. -/
def fixedOnlyFunction : MachineFunction :=
  { blocks := [{ instrs := [retInstr], liveIns := [] }]
    frameInfo :=
      { objectOffset := fun _ => 160
        offsetAdjustment := 0
        stackSize := 0
        hasVarSizedObjects := false
        hasCalls := false
        objectIndexEnd := 0
        numFixedObjects := 1 }
    calleeSavedFrameSize := 0
    usedPhysRegs := fun _ => false
    target := { offsetOfLocalArea := -160, NoFramePointerElim := false } }

/-! ## Machine integer lemmas -/

theorem toInt64_eq_self {x : Int} (h1 : -2 ^ 63 ≤ x) (h2 : x < 2 ^ 63) : toInt64 x = x := by
  unfold toInt64; omega

theorem toInt32_eq_self {x : Int} (h1 : -2 ^ 31 ≤ x) (h2 : x < 2 ^ 31) : toInt32 x = x := by
  unfold toInt32; omega

theorem toUInt64_cast (x : Int) : ((toUInt64 x : Nat) : Int) = x % 2 ^ 64 := by
  unfold toUInt64; omega

theorem toUInt64_eq_self {x : Int} (h1 : 0 ≤ x) (h2 : x < 2 ^ 64) : (toUInt64 x : Int) = x := by
  rw [toUInt64_cast]; omega

theorem toInt32_modEq (x : Int) : toInt32 x ≡ x [ZMOD 2 ^ 32] := by
  unfold toInt32 Int.ModEq; omega

theorem toInt64_modEq (x : Int) : toInt64 x ≡ x [ZMOD 2 ^ 32] := by
  unfold toInt64 Int.ModEq; omega

theorem toUInt64_modEq (x : Int) : (toUInt64 x : Int) ≡ x [ZMOD 2 ^ 32] := by
  rw [toUInt64_cast]; unfold Int.ModEq; omega

theorem toInt32_congr {x y : Int} (h : x ≡ y [ZMOD 2 ^ 32]) : toInt32 x = toInt32 y := by
  have h2 : (x + 2 ^ 31) % 2 ^ 32 = (y + 2 ^ 31) % 2 ^ 32 := h.add_right _
  unfold toInt32
  rw [h2]

theorem toUInt64_modEq64 (x : Int) : (toUInt64 x : Int) ≡ x [ZMOD 2 ^ 64] := by
  rw [toUInt64_cast]; exact Int.mod_modEq _ _

theorem toInt64_congr {x y : Int} (h : x ≡ y [ZMOD 2 ^ 64]) : toInt64 x = toInt64 y := by
  have h2 : (x + 2 ^ 63) % 2 ^ 64 = (y + 2 ^ 63) % 2 ^ 64 := h.add_right _
  unfold toInt64
  rw [h2]

/-- The immediate of one adjusting instruction is the chunk with the sign of
the request. -/
theorem spAdd_imm (isSub : Bool) (v : Nat) (hv : v < 2 ^ 63) :
    toInt64 (if isSub then (toUInt64 (-(toInt64 v)) : Int) else (v : Int)) =
      if isSub then -(v : Int) else (v : Int) := by
  cases isSub
  · simp only [Bool.false_eq_true, if_false]
    exact toInt64_eq_self (by omega) (by omega)
  · simp only [if_true]
    rw [toUInt64_cast]
    unfold toInt64; omega

/-! ## The stack pointer adjuster -/

/-- The instruction `ADD64ri16 R15D, R15D, v` with its dead `PSW` def. -/
theorem spAdd_eq (DL : DebugLoc) (isSub : Bool) (v : Nat) (hv : v < 2 ^ 63) :
    spAdd DL isSub v = spAdjust DL (if isSub then -(v : Int) else (v : Int)) := by
  have h := spAdd_imm isSub v hv
  simp only [spAdd, h]
  simp [spAdjust, BuildMI, MachineInstr.addReg, MachineInstr.addImm, MachineInstr.addOperand,
    MachineInstr.setOperandDead, implicitDefs, updateAt, MachineOperand.isImplicit,
    MachineOperand.setIsDead, List.takeWhile, List.dropWhile]

theorem take_succ_insertBefore {α : Type} (l : List α) (i : Nat) (x : α) :
    (insertBefore l i x).take (i + 1) = l.take i ++ [x] := by
  unfold insertBefore
  rcases Nat.lt_or_ge l.length i with h | h
  · have e1 : l.take i = l := List.take_of_length_le (by omega)
    have e2 : l.drop i = [] := List.drop_of_length_le (by omega)
    rw [e1, e2]
    exact List.take_of_length_le (by simp; omega)
  · have hl : (l.take i).length = i := by simp [h]
    have e : l.take i ++ x :: l.drop i = (l.take i ++ [x]) ++ l.drop i := by simp
    rw [e, List.take_append_of_le_length (by simp [hl]), List.take_of_length_le (by simp [hl])]

theorem drop_succ_insertBefore {α : Type} (l : List α) (i : Nat) (x : α) :
    (insertBefore l i x).drop (i + 1) = l.drop i := by
  unfold insertBefore
  rcases Nat.lt_or_ge l.length i with h | h
  · have e1 : l.take i = l := List.take_of_length_le (by omega)
    have e2 : l.drop i = [] := List.drop_of_length_le (by omega)
    rw [e1, e2]
    exact List.drop_of_length_le (by simp; omega)
  · have hl : (l.take i).length = i := by simp [h]
    have e : l.take i ++ x :: l.drop i = (l.take i ++ [x]) ++ l.drop i := by simp
    rw [e, List.drop_append_of_le_length (by simp [hl]), List.drop_of_length_le (by simp [hl])]
    simp

/-- Loop invariant of `emitSPUpdate`: from any state the loop inserts, at the
iterator, one instruction per chunk; the chunks are positive, at most `Chunk`,
sum to the offset, and there are `(Offset + Chunk - 1) / Chunk` of them. -/
theorem emitSPUpdateLoop_spec (DL : DebugLoc) (isSub : Bool) (Offset : Nat) :
    ∀ (MBB : List MachineInstr) (MBBI : Nat),
      ∃ vals : List Nat,
        emitSPUpdateLoop DL isSub MBB MBBI Offset =
          (MBB.take MBBI ++ vals.map (spAdd DL isSub) ++ MBB.drop MBBI, MBBI + vals.length) ∧
        vals.sum = Offset ∧
        vals.length = (Offset + Chunk - 1) / Chunk ∧
        ∀ v ∈ vals, 0 < v ∧ v ≤ Chunk := by
  induction Offset using Nat.strong_induction_on with
  | _ Offset ih =>
    intro MBB MBBI
    rw [emitSPUpdateLoop]
    by_cases h0 : Offset = 0
    · refine ⟨[], ?_, ?_, ?_, ?_⟩
      · simp [h0]
      · simp [h0]
      · simp [h0, Chunk]
      · simp
    · have hC : Chunk = 32767 := by decide
      have hlt : Offset - (if Offset > Chunk then Chunk else Offset) < Offset := by
        split <;> omega
      obtain ⟨vals, hrun, hsum, hlen, hall⟩ :=
        ih _ hlt (insertBefore MBB MBBI
          (spAdd DL isSub (if Offset > Chunk then Chunk else Offset))) (MBBI + 1)
      refine ⟨(if Offset > Chunk then Chunk else Offset) :: vals, ?_, ?_, ?_, ?_⟩
      · simp only [h0, if_false]
        rw [hrun, take_succ_insertBefore, drop_succ_insertBefore]
        simp [Nat.add_assoc, Nat.add_comm 1]
      · rw [List.sum_cons, hsum]
        split <;> omega
      · rw [List.length_cons, hlen]
        simp only [hC]
        split <;> omega
      · intro v hv
        rcases List.mem_cons.mp hv with rfl | hv
        · split <;> omega
        · exact hall v hv

theorem immSum_append (l₁ l₂ : List MachineInstr) :
    immSum (l₁ ++ l₂) = immSum l₁ + immSum l₂ := by
  simp [immSum]

theorem immSum_spAdjust (DL : DebugLoc) (f : Nat → Int) (vals : List Nat) :
    immSum (vals.map (fun v => spAdjust DL (f v))) = (vals.map f).sum := by
  induction vals with
  | nil => simp [immSum]
  | cons v vs ih =>
    simp only [immSum] at ih
    simp only [immSum, List.map_cons, List.sum_cons, ih]
    simp [spAdjust, MachineInstr.imms, MachineOperand.getImm]

theorem sum_map_neg (vals : List Nat) :
    (vals.map (fun v : Nat => -(v : Int))).sum = -((vals.sum : Nat) : Int) := by
  induction vals with
  | nil => simp
  | cons v vs ih =>
    simp only [List.map_cons, List.sum_cons, ih]
    omega

theorem sum_map_cast (vals : List Nat) :
    (vals.map (fun v : Nat => (v : Int))).sum = ((vals.sum : Nat) : Int) := by
  induction vals with
  | nil => simp
  | cons v vs ih =>
    simp only [List.map_cons, List.sum_cons, ih]
    omega

/-- The instruction count `(n + Chunk - 1) / Chunk` is the ceiling of
`n / 32767`. -/
theorem chunkCount_eq_ceil (n : Nat) :
    (n + Chunk - 1) / Chunk = ⌈(n : ℚ) / 32767⌉₊ := by
  have hC : Chunk = 32767 := by decide
  rw [hC]
  apply le_antisymm
  · rcases Nat.eq_zero_or_pos ((n + 32767 - 1) / 32767) with h | h
    · omega
    · have hk : (n + 32767 - 1) / 32767 - 1 < ⌈(n : ℚ) / 32767⌉₊ := by
        rw [Nat.lt_ceil, lt_div_iff₀ (by norm_num)]
        have : ((n + 32767 - 1) / 32767 - 1) * 32767 < n := by omega
        exact_mod_cast this
      omega
  · rw [Nat.ceil_le, div_le_iff₀ (by norm_num)]
    have : n ≤ (n + 32767 - 1) / 32767 * 32767 := by omega
    exact_mod_cast this

/-- What `emitSPUpdate` does for a request `D` that can be negated: it inserts
at the iterator the adjustments of a list of chunks, each positive and at most
`Chunk`, summing to the magnitude of `D`, and moves the iterator past them. -/
theorem emitSPUpdate_spec (MBB : List MachineInstr) (MBBI : Nat) (D : Int)
    (hlo : -2 ^ 63 ≤ D) (hhi : D < 2 ^ 63) :
    ∃ vals : List Nat,
      emitSPUpdate MBB MBBI D =
        (MBB.take MBBI ++
            vals.map (fun v : Nat => spAdjust (debugLocAt MBB MBBI) (if D < 0 then -(v : Int) else v)) ++
            MBB.drop MBBI,
          MBBI + vals.length) ∧
      vals.sum = D.natAbs ∧
      vals.length = (D.natAbs + Chunk - 1) / Chunk ∧
      ∀ v ∈ vals, 0 < v ∧ v ≤ Chunk := by
  have hoff : toUInt64 (if (decide (D < 0)) = true then toInt64 (-D) else D) = D.natAbs := by
    have h := toUInt64_cast (if (decide (D < 0)) = true then toInt64 (-D) else D)
    by_cases hneg : D < 0
    · simp only [hneg, decide_True, if_true] at h ⊢
      have hx : toInt64 (-D) % 2 ^ 64 = (-D) % 2 ^ 64 := by unfold toInt64; omega
      rw [hx] at h
      omega
    · simp only [hneg, decide_False, Bool.false_eq_true, if_false] at h ⊢
      omega
  obtain ⟨vals, hrun, hsum, hlen, hall⟩ :=
    emitSPUpdateLoop_spec (debugLocAt MBB MBBI) (decide (D < 0)) D.natAbs MBB MBBI
  refine ⟨vals, ?_, hsum, hlen, hall⟩
  simp only [emitSPUpdate, hoff, hrun]
  have hC : Chunk = 32767 := by decide
  have hmap : vals.map (spAdd (debugLocAt MBB MBBI) (decide (D < 0))) =
      vals.map (fun v : Nat => spAdjust (debugLocAt MBB MBBI) (if D < 0 then -(v : Int) else v)) := by
    apply List.map_congr_left
    intro v hv
    have hv2 := (hall v hv).2
    rw [spAdd_eq _ _ v (by omega)]
    simp
  rw [hmap]

theorem int64_of_abs_lt {D : Int} (hD : |D| < 2 ^ 63) : -2 ^ 63 ≤ D ∧ D < 2 ^ 63 := by
  have h := abs_lt.mp hD
  omega

/-- The adjustments of chunks summing to the magnitude of `D`, each with the
sign of `D`, carry immediates summing to `D`. -/
theorem immSum_chunks (DL : DebugLoc) (D : Int) (vals : List Nat)
    (hsum : vals.sum = D.natAbs) :
    immSum (vals.map (fun v : Nat => spAdjust DL (if D < 0 then -(v : Int) else v))) = D := by
  by_cases hneg : D < 0
  · simp only [hneg, if_true]
    rw [immSum_spAdjust _ (fun v : Nat => -(v : Int)), sum_map_neg, hsum]
    omega
  · simp only [hneg, if_false]
    rw [immSum_spAdjust _ (fun v : Nat => (v : Int)), sum_map_cast, hsum]
    omega

/-- C1: for every requested byte delta `D` with `|D| < 2^63`, the instructions
that `emitSPUpdate` inserts at the iterator carry immediates whose sum is
exactly `D`, whatever the size of `D` against the single-instruction maximum
32767. -/
theorem emitSPUpdate_immSum (MBB : List MachineInstr) (MBBI : Nat) (D : Int)
    (hD : |D| < 2 ^ 63) :
    ∃ ins : List MachineInstr,
      (emitSPUpdate MBB MBBI D).1 = MBB.take MBBI ++ ins ++ MBB.drop MBBI ∧
      immSum ins = D := by
  obtain ⟨vals, hrun, hsum, -, -⟩ :=
    emitSPUpdate_spec MBB MBBI D (int64_of_abs_lt hD).1 (int64_of_abs_lt hD).2
  exact ⟨_, by rw [hrun], immSum_chunks _ D vals hsum⟩

/-- Witness of C1: a decrease of 100000 bytes inserted into an empty block. -/
theorem emitSPUpdate_immSum_witness :
    |(-100000 : Int)| < 2 ^ 63 ∧ immSum (emitSPUpdate [] 0 (-100000)).1 = -100000 := by
  refine ⟨by norm_num, ?_⟩
  obtain ⟨ins, h1, h2⟩ := emitSPUpdate_immSum [] 0 (-100000) (by norm_num)
  simp only [List.take_nil, List.drop_nil, List.nil_append, List.append_nil] at h1
  rw [h1]
  exact h2

/-- C2: for every requested byte delta `D` with `|D| < 2^63`, `emitSPUpdate`
returns, having inserted at the iterator exactly `⌈|D| / 32767⌉` instructions
and moved the iterator past them; each is an add to `R15D` of a nonzero
immediate of magnitude at most 32767 with the sign of `D`; for `D = 0` nothing
is inserted and the block is unchanged. -/
theorem emitSPUpdate_count (MBB : List MachineInstr) (MBBI : Nat) (D : Int)
    (hD : |D| < 2 ^ 63) :
    ∃ ins : List MachineInstr,
      emitSPUpdate MBB MBBI D = (MBB.take MBBI ++ ins ++ MBB.drop MBBI, MBBI + ins.length) ∧
      ins.length = ⌈((|D| : Int) : ℚ) / 32767⌉₊ ∧
      (∀ MI ∈ ins, ∃ v : Int, MI = spAdjust (debugLocAt MBB MBBI) v ∧
        v ≠ 0 ∧ |v| ≤ 32767 ∧ (v < 0 ↔ D < 0)) ∧
      (D = 0 → ins = [] ∧ emitSPUpdate MBB MBBI D = (MBB, MBBI)) := by
  obtain ⟨vals, hrun, hsum, hlen, hall⟩ :=
    emitSPUpdate_spec MBB MBBI D (int64_of_abs_lt hD).1 (int64_of_abs_lt hD).2
  have hC : Chunk = 32767 := by decide
  refine ⟨_, by rw [hrun, List.length_map], ?_, ?_, ?_⟩
  · rw [List.length_map, hlen, chunkCount_eq_ceil, Int.cast_natAbs]
  · intro MI hMI
    obtain ⟨v, hv, rfl⟩ := List.mem_map.mp hMI
    obtain ⟨hpos, hle⟩ := hall v hv
    refine ⟨_, rfl, ?_, ?_, ?_⟩
    · split <;> omega
    · rw [abs_le]; split <;> omega
    · split <;> omega
  · intro h0
    have hnil : vals = [] := by
      apply List.eq_nil_of_length_eq_zero
      rw [hlen, h0]; simp [hC]
    subst hnil
    refine ⟨rfl, ?_⟩
    rw [hrun]
    simp

/-- Witness of C2: an increase of 65535 bytes inserted into an empty block. -/
theorem emitSPUpdate_count_witness :
    |(65535 : Int)| < 2 ^ 63 ∧ (emitSPUpdate [] 0 65535).1.length = 3 := by
  refine ⟨by norm_num, ?_⟩
  obtain ⟨ins, h1, h2, -, -⟩ := emitSPUpdate_count [] 0 65535 (by norm_num)
  rw [h1]
  simp only [List.take_nil, List.drop_nil, List.nil_append, List.append_nil]
  rw [h2, Nat.ceil_eq_iff (by norm_num)]
  norm_num

/-! ## Frame index offsets -/

/-- The value of `getFrameIndexOffset` in one formula: with `E` the stack size
the function works with (the stack size itself for a non-negative index, the
stack size less the callee-saved frame size modulo `2^64` for a negative one),
the result is `O + A + E - L`, less `L` once more when `E` is nonzero, as a
32-bit integer. -/
theorem getFrameIndexOffset_eq (MF : MachineFunction) (FI : Int) (E : Nat)
    (hE : E = if FI < 0
      then toUInt64 ((MF.frameInfo.stackSize : Int) - MF.calleeSavedFrameSize)
      else MF.frameInfo.stackSize) :
    getFrameIndexOffset MF FI =
      toInt32 (MF.frameInfo.objectOffset FI + MF.frameInfo.offsetAdjustment +
        (E - MF.target.offsetOfLocalArea) -
        (if E = 0 then 0 else MF.target.offsetOfLocalArea)) := by
  unfold getFrameIndexOffset
  simp only [← hE]
  generalize MF.frameInfo.objectOffset FI = O
  generalize MF.frameInfo.offsetAdjustment = A
  generalize MF.target.offsetOfLocalArea = L
  have hstep : toInt32 (toUInt64 ((toUInt64 (toInt32 (toInt64 (O + A))) : Int) +
      toUInt64 ((E : Int) - toUInt64 L))) ≡ O + A + (E - L) [ZMOD 2 ^ 32] := by
    refine (toInt32_modEq _).trans ((toUInt64_modEq _).trans ?_)
    refine Int.ModEq.add ?_ ?_
    · exact (toUInt64_modEq _).trans ((toInt32_modEq _).trans (toInt64_modEq _))
    · exact (toUInt64_modEq _).trans (Int.ModEq.sub (Int.ModEq.refl _) (toUInt64_modEq _))
  by_cases h0 : E = 0
  · simp only [h0, ne_eq, not_true_eq_false, if_false, if_true, sub_zero] at hstep ⊢
    rw [← toInt32_congr hstep]
    unfold toInt32; omega
  · simp only [h0, ne_eq, not_false_eq_true, if_true, if_false]
    exact toInt32_congr (Int.ModEq.sub hstep (Int.ModEq.refl _))

/-- C3: for a stack object index `FI ≥ 0`, `getFrameIndexOffset` returns
`O + A + (S - L)` when the stack size `S` is zero and `O + A + (S - L) - L`
otherwise, truncated to a signed 32-bit integer (so exactly that value when it
fits one), and the result does not depend on the callee-saved frame size. -/
theorem getFrameIndexOffset_nonneg (MF : MachineFunction) (FI : Int) (hFI : 0 ≤ FI) :
    getFrameIndexOffset MF FI =
        toInt32 (if MF.frameInfo.stackSize = 0
          then MF.frameInfo.objectOffset FI + MF.frameInfo.offsetAdjustment +
            (MF.frameInfo.stackSize - MF.target.offsetOfLocalArea)
          else MF.frameInfo.objectOffset FI + MF.frameInfo.offsetAdjustment +
            (MF.frameInfo.stackSize - MF.target.offsetOfLocalArea) -
            MF.target.offsetOfLocalArea) ∧
      (∀ v : Int, -2 ^ 31 ≤ v → v < 2 ^ 31 →
        v = (if MF.frameInfo.stackSize = 0
          then MF.frameInfo.objectOffset FI + MF.frameInfo.offsetAdjustment +
            (MF.frameInfo.stackSize - MF.target.offsetOfLocalArea)
          else MF.frameInfo.objectOffset FI + MF.frameInfo.offsetAdjustment +
            (MF.frameInfo.stackSize - MF.target.offsetOfLocalArea) -
            MF.target.offsetOfLocalArea) →
        getFrameIndexOffset MF FI = v) ∧
      (∀ F : Nat, getFrameIndexOffset { MF with calleeSavedFrameSize := F } FI =
        getFrameIndexOffset MF FI) := by
  have hnot : ¬ FI < 0 := by omega
  have key : ∀ M : MachineFunction, getFrameIndexOffset M FI =
      toInt32 (if M.frameInfo.stackSize = 0
        then M.frameInfo.objectOffset FI + M.frameInfo.offsetAdjustment +
          (M.frameInfo.stackSize - M.target.offsetOfLocalArea)
        else M.frameInfo.objectOffset FI + M.frameInfo.offsetAdjustment +
          (M.frameInfo.stackSize - M.target.offsetOfLocalArea) -
          M.target.offsetOfLocalArea) := by
    intro M
    rw [getFrameIndexOffset_eq M FI M.frameInfo.stackSize (by simp [hnot])]
    congr 1
    split <;> simp
  refine ⟨key MF, ?_, ?_⟩
  · intro v h1 h2 hv
    rw [key MF, ← hv]
    exact toInt32_eq_self h1 h2
  · intro F
    rw [key, key]

/-- Witness of C3: the first local object (index 0) of `savedOnlyFunction`,
with stack size 8 and local area at -160, resolves to `0 + 0 + (8 + 160) + 160`. -/
theorem getFrameIndexOffset_nonneg_witness :
    (0 : Int) ≤ 0 ∧ getFrameIndexOffset savedOnlyFunction 0 = 328 := by
  refine ⟨le_refl _, ?_⟩
  exact (getFrameIndexOffset_nonneg savedOnlyFunction 0 (le_refl _)).2.1 328
    (by norm_num) (by norm_num) (by simp [savedOnlyFunction])

/-- C4 fails as stated: in `savedOnlyFunction` the stack size is 8, not zero,
yet for the fixed object of index -1 the second subtraction of the local-area
offset is skipped: the result is `0 + 0 + (8 - 8 + 160) = 160`, not the
`160 + 160` the claim gives for a nonzero stack size. -/
theorem getFrameIndexOffset_neg_counterexample :
    (-1 : Int) < 0 ∧ savedOnlyFunction.frameInfo.stackSize ≠ 0 ∧
      getFrameIndexOffset savedOnlyFunction (-1) = 160 ∧
      getFrameIndexOffset savedOnlyFunction (-1) ≠
        savedOnlyFunction.frameInfo.objectOffset (-1) +
          savedOnlyFunction.frameInfo.offsetAdjustment +
          ((savedOnlyFunction.frameInfo.stackSize : Int) -
            savedOnlyFunction.calleeSavedFrameSize -
            savedOnlyFunction.target.offsetOfLocalArea) -
          savedOnlyFunction.target.offsetOfLocalArea := by
  refine ⟨by decide, by decide, by decide, ?_⟩
  decide

/-- C4 as amended: for a stack object index `FI < 0`, with `E = (S - F) mod
2^64` the stack size less the callee-saved frame size, `getFrameIndexOffset`
returns `O + A + (E - L)`, minus a further `L` exactly when `E` is nonzero,
truncated to a signed 32-bit integer.  When `F ≤ S < 2^64` this is
`O + A + (S - F - L)`, minus a further `L` exactly when `S ≠ F`; so the second
subtraction is skipped when `S = F`, in particular when `S = 0 = F`. -/
theorem getFrameIndexOffset_neg (MF : MachineFunction) (FI : Int) (hFI : FI < 0) :
    getFrameIndexOffset MF FI =
        toInt32 (MF.frameInfo.objectOffset FI + MF.frameInfo.offsetAdjustment +
          (toUInt64 ((MF.frameInfo.stackSize : Int) - MF.calleeSavedFrameSize) -
            MF.target.offsetOfLocalArea) -
          (if toUInt64 ((MF.frameInfo.stackSize : Int) - MF.calleeSavedFrameSize) = 0
            then 0 else MF.target.offsetOfLocalArea)) ∧
      (MF.calleeSavedFrameSize ≤ MF.frameInfo.stackSize → MF.frameInfo.stackSize < 2 ^ 64 →
        getFrameIndexOffset MF FI =
          toInt32 (MF.frameInfo.objectOffset FI + MF.frameInfo.offsetAdjustment +
            ((MF.frameInfo.stackSize : Int) - MF.calleeSavedFrameSize -
              MF.target.offsetOfLocalArea) -
            (if MF.frameInfo.stackSize = MF.calleeSavedFrameSize
              then 0 else MF.target.offsetOfLocalArea))) := by
  have key := getFrameIndexOffset_eq MF FI
    (toUInt64 ((MF.frameInfo.stackSize : Int) - MF.calleeSavedFrameSize)) (by simp [hFI])
  refine ⟨key, ?_⟩
  intro hle hlt
  have hE : (toUInt64 ((MF.frameInfo.stackSize : Int) - MF.calleeSavedFrameSize) : Int) =
      (MF.frameInfo.stackSize : Int) - MF.calleeSavedFrameSize :=
    toUInt64_eq_self (by omega) (by omega)
  rw [key, hE]
  have hiff : toUInt64 ((MF.frameInfo.stackSize : Int) - MF.calleeSavedFrameSize) = 0 ↔
      MF.frameInfo.stackSize = MF.calleeSavedFrameSize := by
    constructor
    · intro h; rw [h] at hE; omega
    · intro h; omega
  simp only [hiff]

/-- Witness of C4 as amended: the fixed object of index -1 of
`savedOnlyFunction`, where `S = F = 8`, resolves to 160. -/
theorem getFrameIndexOffset_neg_witness :
    (-1 : Int) < 0 ∧ getFrameIndexOffset savedOnlyFunction (-1) = toInt32 160 := by
  refine ⟨by decide, ?_⟩
  have h := (getFrameIndexOffset_neg savedOnlyFunction (-1) (by decide)).2
    (by decide) (by decide)
  rw [h]
  decide

/-! ## Frame index elimination -/

theorem updateAt_append {α : Type} (f : α → α) (pre : List α) (x : α) (rest : List α) :
    updateAt f (pre ++ x :: rest) pre.length = pre ++ f x :: rest := by
  induction pre with
  | nil => rfl
  | cons p ps ih => simp [updateAt, ih]

theorem get?_append_length {α : Type} (pre : List α) (x : α) (rest : List α) :
    (pre ++ x :: rest).get? pre.length = some x := by
  induction pre with
  | nil => rfl
  | cons p ps ih => simpa using ih

/-- The search stops at the first frame-index operand. -/
theorem findFrameIndex_append (pre : List MachineOperand) (FI : Int)
    (rest : List MachineOperand) (k : Nat) (hpre : ∀ op ∈ pre, op.isFI = false) :
    findFrameIndex (pre ++ .FrameIndex FI :: rest) k = some (k + pre.length) := by
  induction pre generalizing k with
  | nil => simp [findFrameIndex, MachineOperand.isFI]
  | cons p ps ih =>
    have hp : p.isFI = false := hpre p (List.mem_cons_self _ _)
    have hps : ∀ op ∈ ps, op.isFI = false := fun op h => hpre op (List.mem_cons_of_mem _ h)
    rw [List.cons_append, findFrameIndex, ih (k + 1) hps]
    simp only [hp, Bool.false_eq_true, if_false, List.length_cons, Option.some.injEq]
    omega

/-- The search fails when no operand is a frame index. -/
theorem findFrameIndex_none (ops : List MachineOperand) (k : Nat)
    (h : ∀ op ∈ ops, op.isFI = false) : findFrameIndex ops k = none := by
  induction ops generalizing k with
  | nil => rfl
  | cons p ps ih =>
    have hp : p.isFI = false := h p (List.mem_cons_self _ _)
    simp only [findFrameIndex, hp, Bool.false_eq_true, if_false]
    exact ih (k + 1) (fun op ho => h op (List.mem_cons_of_mem _ ho))

/-- A successful search splits the operands at the first frame index. -/
theorem findFrameIndex_some (ops : List MachineOperand) (k i : Nat)
    (h : findFrameIndex ops k = some i) :
    ∃ pre FI rest, ops = pre ++ .FrameIndex FI :: rest ∧
      (∀ op ∈ pre, op.isFI = false) ∧ i = k + pre.length := by
  induction ops generalizing k with
  | nil => simp [findFrameIndex] at h
  | cons p ps ih =>
    by_cases hp : p.isFI = true
    · cases p with
      | FrameIndex FI =>
        simp only [findFrameIndex, hp, if_true, Option.some.injEq] at h
        exact ⟨[], FI, ps, rfl, by simp, by simp [h]⟩
      | Register r d m x => simp [MachineOperand.isFI] at hp
      | Immediate v => simp [MachineOperand.isFI] at hp
      | Other n => simp [MachineOperand.isFI] at hp
    · have hp2 : p.isFI = false := by simpa using hp
      simp only [findFrameIndex, hp2, Bool.false_eq_true, if_false] at h
      obtain ⟨pre, FI, rest, hops, hpre, hi⟩ := ih (k + 1) h
      refine ⟨p :: pre, FI, rest, by simp [hops], ?_, ?_⟩
      · intro op hop
        rcases List.mem_cons.mp hop with rfl | hop
        · exact hp2
        · exact hpre op hop
      · simp only [List.length_cons]; omega

/-- The result of `eliminateFrameIndex` on an instruction whose first frame
index is followed by an immediate. -/
theorem eliminateFrameIndex_eq (MF : MachineFunction) (MI : MachineInstr)
    (pre post : List MachineOperand) (FI Disp : Int)
    (hops : MI.operands = pre ++ .FrameIndex FI :: .Immediate Disp :: post)
    (hpre : ∀ op ∈ pre, op.isFI = false) :
    eliminateFrameIndex MF MI 0 =
      some { MI with operands :=
        pre ++ MachineOperand.Register (if hasFP MF then .R11D else .R15D) false false false ::
          MachineOperand.Immediate (toInt32 (toInt64 (getFrameIndexOffset MF FI + Disp))) ::
          post } := by
  have hfind := findFrameIndex_append pre FI (.Immediate Disp :: post) 0 hpre
  have hget := get?_append_length pre (MachineOperand.FrameIndex FI) (.Immediate Disp :: post)
  have hupd := updateAt_append
    (fun o : MachineOperand => o.ChangeToRegister (if hasFP MF then .R11D else .R15D) false)
    pre (.FrameIndex FI) (.Immediate Disp :: post)
  have hget2 := get?_append_length
    (pre ++ [MachineOperand.Register (if hasFP MF then .R11D else .R15D) false false false])
    (MachineOperand.Immediate Disp) post
  have hupd2 := updateAt_append
    (fun o : MachineOperand =>
      o.ChangeToImmediate (toInt32 (toInt64 (getFrameIndexOffset MF FI + Disp))))
    (pre ++ [MachineOperand.Register (if hasFP MF then .R11D else .R15D) false false false])
    (.Immediate Disp) post
  simp only [List.length_append, List.length_singleton, List.append_assoc,
    List.singleton_append] at hget2 hupd2
  simp only [Nat.zero_add] at hfind
  simp only [MachineOperand.ChangeToRegister] at hupd
  simp only [MachineOperand.ChangeToImmediate] at hupd2
  unfold eliminateFrameIndex
  simp only [ne_eq, not_true_eq_false, if_false, hops, hfind, hget,
    MachineOperand.ChangeToRegister, MachineOperand.ChangeToImmediate, hupd, hget2, hupd2]

theorem get?_append_length_succ {α : Type} (pre : List α) (x : α) (rest : List α) :
    (pre ++ x :: rest).get? (pre.length + 1) = rest.get? 0 := by
  induction pre with
  | nil => rfl
  | cons p ps ih => simpa using ih

/-- The result of `eliminateFrameIndex` with a zero adjustment, read off the
operands that follow the first frame index: it succeeds exactly when the next
operand is an immediate. -/
theorem eliminateFrameIndex_split (MF : MachineFunction) (MI : MachineInstr)
    (pre rest : List MachineOperand) (FI : Int)
    (hops : MI.operands = pre ++ .FrameIndex FI :: rest)
    (hpre : ∀ op ∈ pre, op.isFI = false) :
    eliminateFrameIndex MF MI 0 =
      match rest with
      | .Immediate Disp :: post =>
        some { MI with operands :=
          pre ++ MachineOperand.Register (if hasFP MF then .R11D else .R15D) false false false ::
            MachineOperand.Immediate (toInt32 (toInt64 (getFrameIndexOffset MF FI + Disp))) ::
            post }
      | _ => none := by
  have hfind := findFrameIndex_append pre FI rest 0 hpre
  have hget := get?_append_length pre (MachineOperand.FrameIndex FI) rest
  have hupd := updateAt_append
    (fun o : MachineOperand => o.ChangeToRegister (if hasFP MF then .R11D else .R15D) false)
    pre (.FrameIndex FI) rest
  have hget2 := get?_append_length_succ pre
    (MachineOperand.Register (if hasFP MF then .R11D else .R15D) false false false) rest
  simp only [Nat.zero_add] at hfind
  simp only [MachineOperand.ChangeToRegister] at hupd
  cases rest with
  | nil =>
    unfold eliminateFrameIndex
    simp only [ne_eq, not_true_eq_false, if_false, hops, hfind, hget,
      MachineOperand.ChangeToRegister, hupd, hget2]
    rfl
  | cons x post =>
    cases x with
    | Immediate Disp => exact eliminateFrameIndex_eq MF MI pre post FI Disp hops hpre
    | Register r d m x =>
      unfold eliminateFrameIndex
      simp only [ne_eq, not_true_eq_false, if_false, hops, hfind, hget,
        MachineOperand.ChangeToRegister, hupd, hget2]
      rfl
    | FrameIndex j =>
      unfold eliminateFrameIndex
      simp only [ne_eq, not_true_eq_false, if_false, hops, hfind, hget,
        MachineOperand.ChangeToRegister, hupd, hget2]
      rfl
    | Other n =>
      unfold eliminateFrameIndex
      simp only [ne_eq, not_true_eq_false, if_false, hops, hfind, hget,
        MachineOperand.ChangeToRegister, hupd, hget2]
      rfl

/-- Every success of `eliminateFrameIndex` has this shape: a zero adjustment,
a first frame index followed by an immediate, and both operands rewritten. -/
theorem eliminateFrameIndex_some (MF : MachineFunction) (MI MI' : MachineInstr) (SPAdj : Int)
    (h : eliminateFrameIndex MF MI SPAdj = some MI') :
    SPAdj = 0 ∧ ∃ pre FI Disp post,
      MI.operands = pre ++ .FrameIndex FI :: .Immediate Disp :: post ∧
      (∀ op ∈ pre, op.isFI = false) ∧
      MI' = { MI with operands :=
        pre ++ MachineOperand.Register (if hasFP MF then .R11D else .R15D) false false false ::
          MachineOperand.Immediate (toInt32 (toInt64 (getFrameIndexOffset MF FI + Disp))) ::
          post } := by
  have hadj : SPAdj = 0 := by
    by_contra hne
    simp [eliminateFrameIndex, hne] at h
  subst hadj
  refine ⟨rfl, ?_⟩
  cases hfind : findFrameIndex MI.operands 0 with
  | none => simp [eliminateFrameIndex, hfind] at h
  | some i =>
    obtain ⟨pre, FI, rest, hops, hpre, -⟩ := findFrameIndex_some MI.operands 0 i hfind
    rw [eliminateFrameIndex_split MF MI pre rest FI hops hpre] at h
    cases rest with
    | nil => simp at h
    | cons x post =>
      cases x with
      | Immediate Disp =>
        simp only [Option.some.injEq] at h
        exact ⟨pre, FI, Disp, post, hops, hpre, h.symm⟩
      | Register r d m x => simp at h
      | FrameIndex j => simp at h
      | Other n => simp at h

/-- C5 fails as stated: resolving `farLoad` (frame index 0, displacement
`2^31`) in `emptyFrameFunction`, where `getFrameIndexOffset` is 0, writes the
displacement `-2^31`, not the sum `0 + 2^31`. -/
theorem eliminateFrameIndex_counterexample :
    eliminateFrameIndex emptyFrameFunction farLoad 0 = some resolvedFarLoad ∧
      resolvedFarLoad.operands.get? 2 = some (.Immediate (-2147483648)) ∧
      farLoad.operands.get? 1 = some (.FrameIndex 0) ∧
      farLoad.operands.get? 2 = some (.Immediate 2147483648) ∧
      getFrameIndexOffset emptyFrameFunction 0 + 2147483648 ≠ -2147483648 := by
  refine ⟨by decide, by decide, by decide, by decide, by decide⟩

/-- C5 as amended: for an instruction whose first frame-index operand (at
position `pre.length`) is followed by an immediate displacement,
`eliminateFrameIndex` with `SPAdj = 0` rewrites that frame index into a plain
register operand naming `R11D` if the function needs a frame pointer and `R15D`
otherwise, rewrites the next operand into the immediate
`getFrameIndexOffset(FI) + old displacement` truncated to a signed 32-bit
integer (the exact sum whenever it fits one), and leaves the opcode, the number
of operands and every other operand unchanged. -/
theorem eliminateFrameIndex_rewrites (MF : MachineFunction) (MI : MachineInstr)
    (pre post : List MachineOperand) (FI Disp : Int)
    (hops : MI.operands = pre ++ .FrameIndex FI :: .Immediate Disp :: post)
    (hpre : ∀ op ∈ pre, op.isFI = false) :
    eliminateFrameIndex MF MI 0 =
        some { MI with operands :=
          pre ++ MachineOperand.Register (if hasFP MF then .R11D else .R15D) false false false ::
            MachineOperand.Immediate (toInt32 (getFrameIndexOffset MF FI + Disp)) :: post } ∧
      (-2 ^ 31 ≤ getFrameIndexOffset MF FI + Disp → getFrameIndexOffset MF FI + Disp < 2 ^ 31 →
        eliminateFrameIndex MF MI 0 =
          some { MI with operands :=
            pre ++ MachineOperand.Register (if hasFP MF then .R11D else .R15D) false false false ::
              MachineOperand.Immediate (getFrameIndexOffset MF FI + Disp) :: post }) := by
  have h := eliminateFrameIndex_eq MF MI pre post FI Disp hops hpre
  rw [toInt32_congr (toInt64_modEq _)] at h
  refine ⟨h, ?_⟩
  intro h1 h2
  rw [h, toInt32_eq_self h1 h2]

/-- Witness of C5 as amended: `farLoad` resolved in `emptyFrameFunction`. -/
theorem eliminateFrameIndex_rewrites_witness :
    eliminateFrameIndex emptyFrameFunction farLoad 0 =
      some { farLoad with operands :=
        ([MachineOperand.Register .R6D true false false] ++
          (MachineOperand.Register (if hasFP emptyFrameFunction then .R11D else .R15D)
              false false false) ::
            (MachineOperand.Immediate
              (toInt32 (getFrameIndexOffset emptyFrameFunction 0 + 2147483648))) ::
            [MachineOperand.Other 0]) } :=
  (eliminateFrameIndex_rewrites emptyFrameFunction farLoad
    [.Register .R6D true false false] [.Other 0] 0 2147483648 (by decide) (by decide)).1

/-- C6: `eliminateFrameIndex` fails, returning no instruction, for every call
with a nonzero `SPAdj`, and for every instruction none of whose operands is a
frame index (an instruction without operands included). -/
theorem eliminateFrameIndex_fails (MF : MachineFunction) (MI : MachineInstr) (SPAdj : Int)
    (h : SPAdj ≠ 0 ∨ ∀ op ∈ MI.operands, op.isFI = false) :
    eliminateFrameIndex MF MI SPAdj = none := by
  rcases h with h | h
  · simp [eliminateFrameIndex, h]
  · by_cases hadj : SPAdj = 0
    · simp [eliminateFrameIndex, hadj, findFrameIndex_none MI.operands 0 h]
    · simp [eliminateFrameIndex, hadj]

/-- Witness of C6: the return instruction has no operands. -/
theorem eliminateFrameIndex_fails_witness :
    ((0 : Int) ≠ 0 ∨ ∀ op ∈ retInstr.operands, op.isFI = false) ∧
      eliminateFrameIndex emptyFrameFunction retInstr 0 = none :=
  ⟨Or.inr (by decide), eliminateFrameIndex_fails emptyFrameFunction retInstr 0
    (Or.inr (by decide))⟩

/-- C7: when `eliminateFrameIndex` succeeds on an instruction carrying exactly
one frame-index operand, the resulting instruction has no frame-index operand,
and every further `eliminateFrameIndex` call on it fails instead of rewriting
anything. -/
theorem eliminateFrameIndex_once (MF : MachineFunction) (MI MI' : MachineInstr) (SPAdj : Int)
    (hone : MI.operands.countP MachineOperand.isFI = 1)
    (hs : eliminateFrameIndex MF MI SPAdj = some MI') :
    (∀ op ∈ MI'.operands, op.isFI = false) ∧
      ∀ (MF2 : MachineFunction) (SPAdj2 : Int), eliminateFrameIndex MF2 MI' SPAdj2 = none := by
  obtain ⟨-, pre, FI, Disp, post, hops, hpre, rfl⟩ := eliminateFrameIndex_some MF MI MI' SPAdj hs
  have hpre0 : pre.countP MachineOperand.isFI = 0 := by
    rw [List.countP_eq_zero]
    intro op hop
    simp [hpre op hop]
  rw [hops, List.countP_append, hpre0] at hone
  simp only [List.countP_cons, MachineOperand.isFI, if_true, Bool.false_eq_true, if_false,
    Nat.zero_add, Nat.add_zero] at hone
  have hpost : ∀ op ∈ post, op.isFI = false := by
    have h0 : post.countP MachineOperand.isFI = 0 := by omega
    rw [List.countP_eq_zero] at h0
    intro op hop
    simpa using h0 op hop
  have hall : ∀ op ∈ pre ++
      MachineOperand.Register (if hasFP MF then .R11D else .R15D) false false false ::
        MachineOperand.Immediate (toInt32 (toInt64 (getFrameIndexOffset MF FI + Disp))) ::
        post, op.isFI = false := by
    intro op hop
    rcases List.mem_append.mp hop with hop | hop
    · exact hpre op hop
    · rcases List.mem_cons.mp hop with rfl | hop
      · rfl
      · rcases List.mem_cons.mp hop with rfl | hop
        · rfl
        · exact hpost op hop
  refine ⟨hall, ?_⟩
  intro MF2 SPAdj2
  exact eliminateFrameIndex_fails MF2 _ SPAdj2 (Or.inr hall)

/-- Witness of C7: `farLoad` resolves once, and its resolved form is rejected. -/
theorem eliminateFrameIndex_once_witness :
    farLoad.operands.countP MachineOperand.isFI = 1 ∧
      eliminateFrameIndex emptyFrameFunction farLoad 0 = some resolvedFarLoad ∧
      eliminateFrameIndex emptyFrameFunction resolvedFarLoad 0 = none :=
  ⟨by decide, by decide,
    (eliminateFrameIndex_once emptyFrameFunction farLoad resolvedFarLoad 0
      (by decide) (by decide)).2 emptyFrameFunction 0⟩

/-! ## Reserved registers -/

/-- C8: `getReservedRegs` marks exactly the link register `R14D`, the stack
pointer `R15D` and, if and only if `hasFP` holds, the frame pointer `R11D`;
`hasFP` holds if and only if frame-pointer elimination is disabled or the
function has variable-sized stack objects. -/
theorem getReservedRegs_spec (MF : MachineFunction) :
    (∀ r : Reg, getReservedRegs MF r = true ↔
      r = .R14D ∨ r = .R15D ∨ (r = .R11D ∧ hasFP MF = true)) ∧
    (getReservedRegs MF .R14D = true ∧ getReservedRegs MF .R15D = true) ∧
    (getReservedRegs MF .R11D = true ↔ hasFP MF = true) ∧
    (hasFP MF = true ↔
      MF.target.NoFramePointerElim = true ∨ MF.frameInfo.hasVarSizedObjects = true) := by
  have hall : ∀ r : Reg, getReservedRegs MF r = true ↔
      r = .R14D ∨ r = .R15D ∨ (r = .R11D ∧ hasFP MF = true) := by
    intro r
    unfold getReservedRegs BitVector.set
    by_cases hfp : hasFP MF = true
    · simp only [hfp, if_true]
      by_cases h15 : r = .R15D
      · simp [h15]
      · by_cases h14 : r = .R14D
        · simp [h14]
        · simp [h14, h15]
    · simp only [hfp, Bool.false_eq_true, if_false]
      by_cases h15 : r = .R15D
      · simp [h15]
      · by_cases h14 : r = .R14D
        · simp [h14]
        · simp [h14, h15]
  refine ⟨hall, ⟨(hall _).2 (Or.inl rfl), (hall _).2 (Or.inr (Or.inl rfl))⟩, ?_, ?_⟩
  · rw [hall]
    simp
  · simp [hasFP]

/-! ## Prologue -/

theorem skipCalleeSavedPushes_eq (l : List MachineInstr) (k : Nat) :
    skipCalleeSavedPushes l k = k + (l.takeWhile isCalleeSavedPush).length := by
  induction l generalizing k with
  | nil => rfl
  | cons x xs ih =>
    by_cases hx : isCalleeSavedPush x = true
    · simp only [skipCalleeSavedPushes, hx, if_true, List.takeWhile_cons_of_pos, ih,
        List.length_cons]
      omega
    · simp [skipCalleeSavedPushes, hx, List.takeWhile_cons_of_neg]

theorem take_length_takeWhile {α : Type} (p : α → Bool) (l : List α) :
    l.take (l.takeWhile p).length = l.takeWhile p := by
  induction l with
  | nil => rfl
  | cons x xs ih =>
    by_cases hx : p x = true
    · simp [List.takeWhile_cons_of_pos hx, ih]
    · simp [List.takeWhile_cons_of_neg hx]

theorem drop_length_takeWhile {α : Type} (p : α → Bool) (l : List α) :
    l.drop (l.takeWhile p).length = l.dropWhile p := by
  induction l with
  | nil => rfl
  | cons x xs ih =>
    by_cases hx : p x = true
    · simp [List.takeWhile_cons_of_pos hx, List.dropWhile_cons_of_pos hx, ih]
    · simp [List.takeWhile_cons_of_neg hx, List.dropWhile_cons_of_neg hx]

theorem insertBefore_append {α : Type} (A C : List α) (x : α) :
    insertBefore (A ++ C) A.length x = A ++ x :: C := by
  simp [insertBefore]

theorem insertBefore_append_map {α β : Type} (A C : List α) (vals : List β) (f : β → α)
    (x : α) :
    insertBefore (A ++ vals.map f ++ C) (A.length + vals.length) x =
      A ++ vals.map f ++ x :: C := by
  have h : A.length + vals.length = (A ++ vals.map f).length := by simp
  rw [h, insertBefore_append]

theorem fpCopy_eq (DL : DebugLoc) :
    (BuildMI DL .MOV64rr .R11D).addReg .R15D = fpCopy DL := by
  simp [fpCopy, BuildMI, MachineInstr.addReg, MachineInstr.addOperand, implicitDefs,
    MachineOperand.isImplicit, List.takeWhile, List.dropWhile]

/-- The request `-(int64_t)NumBytes` that `emitPrologue` passes on is a 64-bit
value. -/
theorem toInt64_range (x : Int) : -2 ^ 63 ≤ toInt64 x ∧ toInt64 x < 2 ^ 63 := by
  unfold toInt64; omega

/-- What `emitPrologue` does to a function with entry block `MBB`: after the
leading callee-saved pushes of `MBB` it inserts the adjustments of a list of
chunks (none when the net stack size is zero) and then, under `hasFP`, the
frame-pointer copy; under `hasFP` every other block gets `R11D` as live-in. -/
theorem emitPrologue_shape (MF : MachineFunction) (MBB : MachineBasicBlock)
    (others : List MachineBasicBlock) (hblocks : MF.blocks = MBB :: others) :
    ∃ (vals : List Nat) (DLa DLc : DebugLoc),
      emitPrologue MF = some { MF with blocks :=
        { MBB with instrs :=
            MBB.instrs.takeWhile isCalleeSavedPush ++
              (vals.map (fun v : Nat => spAdjust DLa
                (if toInt64 (-(toInt64 (netLocalBytes MF))) < 0 then -(v : Int) else v)) ++
              ((if hasFP MF then [fpCopy DLc] else []) ++
                MBB.instrs.dropWhile isCalleeSavedPush)) } ::
          (if hasFP MF then others.map (fun B => B.addLiveIn .R11D) else others) } ∧
      vals.sum =
        (if netStackSize MF = 0 then 0 else (toInt64 (-(toInt64 (netLocalBytes MF)))).natAbs) ∧
      ∀ v ∈ vals, 0 < v ∧ v ≤ Chunk := by
  have hk := skipCalleeSavedPushes_eq MBB.instrs 0
  rw [Nat.zero_add] at hk
  have htake := take_length_takeWhile isCalleeSavedPush MBB.instrs
  have hdrop := drop_length_takeWhile isCalleeSavedPush MBB.instrs
  obtain ⟨hlo, hhi⟩ := toInt64_range (-(toInt64 (netLocalBytes MF)))
  obtain ⟨vals, hrun, hsum, -, hall⟩ := emitSPUpdate_spec MBB.instrs
    (MBB.instrs.takeWhile isCalleeSavedPush).length _ hlo hhi
  rw [htake, hdrop] at hrun
  have hins : ∀ x : MachineInstr,
      insertBefore MBB.instrs (MBB.instrs.takeWhile isCalleeSavedPush).length x =
        MBB.instrs.takeWhile isCalleeSavedPush ++ x :: MBB.instrs.dropWhile isCalleeSavedPush := by
    intro x
    unfold insertBefore
    rw [htake, hdrop]
  by_cases hE : netStackSize MF = 0
  · refine ⟨[], .unknown, (if (MBB.instrs.takeWhile isCalleeSavedPush).length ≠ MBB.instrs.length
      then debugLocAt MBB.instrs (MBB.instrs.takeWhile isCalleeSavedPush).length
      else debugLocAt MBB.instrs 0), ?_, by simp [hE], by simp⟩
    have hE2 := hE
    unfold netStackSize at hE2
    by_cases hfp : hasFP MF = true
    · simp only [emitPrologue, hblocks, hE2, hk, hfp, ne_eq, not_true_eq_false, if_false,
        if_true, fpCopy_eq, List.map_nil, List.nil_append, hins, List.singleton_append]
    · simp only [emitPrologue, hblocks, hE2, hk, hfp, ne_eq, not_true_eq_false, if_false,
        Bool.false_eq_true, List.map_nil, List.nil_append, List.takeWhile_append_dropWhile]
  · refine ⟨vals, debugLocAt MBB.instrs (MBB.instrs.takeWhile isCalleeSavedPush).length,
      (if (MBB.instrs.takeWhile isCalleeSavedPush).length ≠ MBB.instrs.length
      then debugLocAt MBB.instrs (MBB.instrs.takeWhile isCalleeSavedPush).length
      else debugLocAt MBB.instrs 0), ?_, by simp [hE, hsum], hall⟩
    have hE2 := hE
    unfold netStackSize at hE2
    have hrun2 := hrun
    unfold netLocalBytes netStackSize at hrun2
    by_cases hfp : hasFP MF = true
    · simp only [emitPrologue, hblocks, hE2, hk, hfp, ne_eq, not_false_eq_true, if_true,
        fpCopy_eq, hrun2]
      rw [insertBefore_append_map]
      simp only [netLocalBytes, netStackSize, List.append_assoc, List.singleton_append]
    · simp only [emitPrologue, hblocks, hE2, hk, hfp, ne_eq, not_false_eq_true, if_true,
        Bool.false_eq_true, if_false, hrun2, List.nil_append]
      simp only [netLocalBytes, netStackSize, List.append_assoc]

/-- The request `-(int64_t)NumBytes` of `emitPrologue` is `-((S - F) - L)`
whenever that value fits a signed 64-bit integer. -/
theorem prologueRequest_eq (MF : MachineFunction)
    (hfit : |(MF.frameInfo.stackSize : Int) - MF.calleeSavedFrameSize -
      MF.target.offsetOfLocalArea| < 2 ^ 63) :
    toInt64 (-(toInt64 (netLocalBytes MF))) =
      -((MF.frameInfo.stackSize : Int) - MF.calleeSavedFrameSize -
        MF.target.offsetOfLocalArea) := by
  obtain ⟨h1, h2⟩ := abs_lt.mp hfit
  have hmod : (netLocalBytes MF : Int) ≡ (MF.frameInfo.stackSize : Int) -
      MF.calleeSavedFrameSize - MF.target.offsetOfLocalArea [ZMOD 2 ^ 64] := by
    unfold netLocalBytes netStackSize
    exact (toUInt64_modEq64 _).trans
      (Int.ModEq.sub (toUInt64_modEq64 _) (toUInt64_modEq64 _))
  have hin : toInt64 (netLocalBytes MF) = (MF.frameInfo.stackSize : Int) -
      MF.calleeSavedFrameSize - MF.target.offsetOfLocalArea := by
    rw [toInt64_congr hmod]
    exact toInt64_eq_self (by omega) (by omega)
  rw [hin]
  exact toInt64_eq_self (by omega) (by omega)

/-- C9 fails as stated: `savedOnlyFunction` has `S = F = 8` and `L = -160`, so
`(S - F) - L = 160`, yet `emitPrologue` leaves its entry block as it is: no
instructions summing to `-160` are inserted between the store and the
return. -/
theorem emitPrologue_counterexample :
    (emitPrologue savedOnlyFunction).map (fun MF => MF.blocks) =
        some [{ instrs := [savedPush, retInstr], liveIns := [] }] ∧
      savedOnlyFunction.blocks = [{ instrs := [savedPush, retInstr], liveIns := [] }] ∧
      ((savedOnlyFunction.frameInfo.stackSize : Int) - savedOnlyFunction.calleeSavedFrameSize) -
        savedOnlyFunction.target.offsetOfLocalArea = 160 ∧
      ¬ ∃ adj : List MachineInstr,
        [savedPush, retInstr] = [savedPush] ++ adj ++ [retInstr] ∧ immSum adj = -160 := by
  refine ⟨by decide, by decide, by decide, ?_⟩
  rintro ⟨adj, hshape, hsum⟩
  have hlen := congrArg List.length hshape
  simp only [List.length_cons, List.length_nil, List.length_append] at hlen
  have hnil : adj = [] := List.eq_nil_of_length_eq_zero (by omega)
  rw [hnil] at hsum
  simp [immSum] at hsum

/-- C9 as amended: for a function with an entry block whose net local byte
count `(S - F) - L` fits a signed 64-bit integer, `emitPrologue` inserts into
the entry block, immediately after its leading run of callee-save stores
(`MOV64mr` / `MOV64mrm`), a list `adj` of stack-pointer adjustments: when
`S - F` is zero modulo `2^64` the list is empty, no adjustment is inserted;
otherwise every adjustment has a nonzero immediate of magnitude at most 32767
with the sign of `-((S - F) - L)`, and the immediates sum to
`-((S - F) - L)`.  The only other instruction it may insert is the
frame-pointer copy after them, and every pre-existing instruction keeps its
relative order. -/
theorem emitPrologue_adjusts (MF : MachineFunction) (MBB : MachineBasicBlock)
    (others : List MachineBasicBlock) (hblocks : MF.blocks = MBB :: others)
    (hfit : |(MF.frameInfo.stackSize : Int) - MF.calleeSavedFrameSize -
      MF.target.offsetOfLocalArea| < 2 ^ 63) :
    ∃ (MF' : MachineFunction) (MBB' : MachineBasicBlock) (others' : List MachineBasicBlock)
      (adj copy : List MachineInstr),
      emitPrologue MF = some MF' ∧ MF'.blocks = MBB' :: others' ∧
      MBB'.instrs = MBB.instrs.takeWhile isCalleeSavedPush ++
        (adj ++ (copy ++ MBB.instrs.dropWhile isCalleeSavedPush)) ∧
      (∀ MI ∈ adj, ∃ DL v, MI = spAdjust DL v ∧ v ≠ 0 ∧ |v| ≤ 32767 ∧
        (v < 0 ↔ 0 < (MF.frameInfo.stackSize : Int) - MF.calleeSavedFrameSize -
          MF.target.offsetOfLocalArea)) ∧
      (∀ MI ∈ copy, ∃ DL, MI = fpCopy DL) ∧
      immSum adj =
        (if ((MF.frameInfo.stackSize : Int) - MF.calleeSavedFrameSize) % 2 ^ 64 = 0 then 0
          else -((MF.frameInfo.stackSize : Int) - MF.calleeSavedFrameSize -
            MF.target.offsetOfLocalArea)) ∧
      List.Sublist MBB.instrs MBB'.instrs ∧
      (((MF.frameInfo.stackSize : Int) - MF.calleeSavedFrameSize) % 2 ^ 64 = 0 → adj = []) := by
  obtain ⟨vals, DLa, DLc, hrun, hsum, hall⟩ := emitPrologue_shape MF MBB others hblocks
  have hC : Chunk = 32767 := by decide
  have hreq := prologueRequest_eq MF hfit
  have hzero : netStackSize MF = 0 ↔
      ((MF.frameInfo.stackSize : Int) - MF.calleeSavedFrameSize) % 2 ^ 64 = 0 := by
    have h := toUInt64_cast ((MF.frameInfo.stackSize : Int) - MF.calleeSavedFrameSize)
    unfold netStackSize
    omega
  have hnil : netStackSize MF = 0 → vals = [] := by
    intro h0
    rw [if_pos h0] at hsum
    cases vals with
    | nil => rfl
    | cons v vs =>
      have hv := (hall v (List.mem_cons_self _ _)).1
      rw [List.sum_cons] at hsum
      omega
  refine ⟨_, _, _,
    vals.map (fun v : Nat => spAdjust DLa
      (if toInt64 (-(toInt64 (netLocalBytes MF))) < 0 then -(v : Int) else v)),
    (if hasFP MF then [fpCopy DLc] else []), hrun, rfl, rfl, ?_, ?_, ?_, ?_, ?_⟩
  · intro MI hMI
    obtain ⟨v, hv, rfl⟩ := List.mem_map.mp hMI
    obtain ⟨hpos, hle⟩ := hall v hv
    have hne : netStackSize MF ≠ 0 := by
      intro h0
      rw [hnil h0] at hv
      cases hv
    rw [if_neg hne] at hsum
    have hsumpos : 0 < vals.sum := by
      obtain ⟨l1, l2, rfl⟩ := List.append_of_mem hv
      simp only [List.sum_append, List.sum_cons]
      omega
    refine ⟨DLa, _, rfl, ?_, ?_, ?_⟩
    · split <;> omega
    · rw [abs_le]; split <;> omega
    · rw [hreq] at hsum ⊢
      split <;> omega
  · intro MI hMI
    split at hMI
    · exact ⟨DLc, by simpa using hMI⟩
    · simp at hMI
  · by_cases h0 : netStackSize MF = 0
    · rw [hnil h0, if_pos (hzero.1 h0)]
      simp [immSum]
    · rw [if_neg h0] at hsum
      rw [if_neg (fun h => h0 (hzero.2 h)), immSum_chunks _ _ vals hsum]
      exact hreq
  · simp only
    conv_lhs => rw [← List.takeWhile_append_dropWhile isCalleeSavedPush MBB.instrs]
    refine List.Sublist.append (List.Sublist.refl _) ?_
    exact (List.sublist_append_right _ _).trans (List.sublist_append_right _ _)
  · intro h0
    rw [hnil (hzero.2 h0)]
    rfl

/-- Witness of C9 as amended: `allocaFunction`, with `S = 168`, `F = 8` and
`L = -160`, gets adjustments, all negative, summing to `-320` after its
store. -/
theorem emitPrologue_adjusts_witness :
    allocaFunction.blocks =
        { instrs := [savedPush, retInstr], liveIns := [] } ::
          [{ instrs := [retInstr], liveIns := [.R6D] }] ∧
      |(168 : Int) - 8 - (-160)| < 2 ^ 63 ∧
      ∃ (MF' : MachineFunction) (MBB' : MachineBasicBlock)
        (others' : List MachineBasicBlock) (adj copy : List MachineInstr),
        emitPrologue allocaFunction = some MF' ∧ MF'.blocks = MBB' :: others' ∧
        MBB'.instrs = [savedPush] ++ (adj ++ (copy ++ [retInstr])) ∧
        (∀ MI ∈ adj, ∃ DL v, MI = spAdjust DL v ∧ v < 0) ∧
        (∀ MI ∈ copy, ∃ DL, MI = fpCopy DL) ∧
        immSum adj = -320 ∧
        List.Sublist [savedPush, retInstr] MBB'.instrs := by
  refine ⟨rfl, by norm_num, ?_⟩
  have h := emitPrologue_adjusts allocaFunction
    { instrs := [savedPush, retInstr], liveIns := [] }
    [{ instrs := [retInstr], liveIns := [.R6D] }] rfl (by norm_num [allocaFunction])
  have e1 : List.takeWhile isCalleeSavedPush [savedPush, retInstr] = [savedPush] := by decide
  have e2 : List.dropWhile isCalleeSavedPush [savedPush, retInstr] = [retInstr] := by decide
  have e3 : (if ((allocaFunction.frameInfo.stackSize : Int) -
      allocaFunction.calleeSavedFrameSize) % 2 ^ 64 = 0 then (0 : Int)
      else -((allocaFunction.frameInfo.stackSize : Int) - allocaFunction.calleeSavedFrameSize -
        allocaFunction.target.offsetOfLocalArea)) = -320 := by decide
  have e4 : (0 : Int) < (allocaFunction.frameInfo.stackSize : Int) -
      allocaFunction.calleeSavedFrameSize - allocaFunction.target.offsetOfLocalArea := by
    decide
  simp only [e1, e2, e3] at h
  obtain ⟨MF', MBB', others', adj, copy, h1, h2, h3, h4, h5, h6, h7, -⟩ := h
  refine ⟨MF', MBB', others', adj, copy, h1, h2, h3, ?_, h5, h6, h7⟩
  intro MI hMI
  obtain ⟨DL, v, hv, -, -, hsign⟩ := h4 MI hMI
  exact ⟨DL, v, hv, hsign.2 e4⟩

/-- C10: for every function with an entry block, `emitPrologue` keeps the
live-in list of the entry block; if the function needs a frame pointer it
inserts the copy `MOV64rr R11D, R15D` directly after the stack-pointer
adjustments (themselves after the leading callee-save stores) and appends
`R11D` to the live-in list of every block but the entry block; otherwise it
inserts no copy and changes no live-in list. -/
theorem emitPrologue_framePointer (MF : MachineFunction) (MBB : MachineBasicBlock)
    (others : List MachineBasicBlock) (hblocks : MF.blocks = MBB :: others) :
    ∃ (MF' : MachineFunction) (MBB' : MachineBasicBlock) (others' : List MachineBasicBlock)
      (adj : List MachineInstr) (DL : DebugLoc),
      emitPrologue MF = some MF' ∧ MF'.blocks = MBB' :: others' ∧
      MBB'.liveIns = MBB.liveIns ∧
      (∀ MI ∈ adj, ∃ DLa v, MI = spAdjust DLa v) ∧
      (hasFP MF = true →
        MBB'.instrs = MBB.instrs.takeWhile isCalleeSavedPush ++
          (adj ++ fpCopy DL :: MBB.instrs.dropWhile isCalleeSavedPush) ∧
        others' = others.map (fun B => { B with liveIns := B.liveIns ++ [Reg.R11D] })) ∧
      (hasFP MF = false →
        MBB'.instrs = MBB.instrs.takeWhile isCalleeSavedPush ++
          (adj ++ MBB.instrs.dropWhile isCalleeSavedPush) ∧
        others' = others) := by
  obtain ⟨vals, DLa, DLc, hrun, -, -⟩ := emitPrologue_shape MF MBB others hblocks
  refine ⟨_, _, _,
    vals.map (fun v : Nat => spAdjust DLa
      (if toInt64 (-(toInt64 (netLocalBytes MF))) < 0 then -(v : Int) else v)),
    DLc, hrun, rfl, rfl, ?_, ?_, ?_⟩
  · intro MI hMI
    obtain ⟨v, -, rfl⟩ := List.mem_map.mp hMI
    exact ⟨_, _, rfl⟩
  · intro hfp
    simp only [hfp, if_true, List.singleton_append, true_and]
    rfl
  · intro hfp
    simp only [hfp, Bool.false_eq_true, if_false, List.nil_append, and_self]

/-- Witness of C10: `allocaFunction` needs a frame pointer, so its second
block gets `R11D` as live-in after `R6D`. -/
theorem emitPrologue_framePointer_witness :
    allocaFunction.blocks =
        { instrs := [savedPush, retInstr], liveIns := [] } ::
          [{ instrs := [retInstr], liveIns := [.R6D] }] ∧
      hasFP allocaFunction = true ∧
      ∃ (MF' : MachineFunction) (MBB' : MachineBasicBlock) (adj : List MachineInstr)
        (DL : DebugLoc),
        emitPrologue allocaFunction = some MF' ∧
        MF'.blocks = [MBB', { instrs := [retInstr], liveIns := [.R6D, .R11D] }] ∧
        MBB'.liveIns = [] ∧
        MBB'.instrs = [savedPush] ++ (adj ++ fpCopy DL :: [retInstr]) := by
  refine ⟨rfl, by decide, ?_⟩
  obtain ⟨MF', MBB', others', adj, DL, h1, h2, h3, -, h5, -⟩ :=
    emitPrologue_framePointer allocaFunction
      { instrs := [savedPush, retInstr], liveIns := [] }
      [{ instrs := [retInstr], liveIns := [.R6D] }] rfl
  obtain ⟨h6, h7⟩ := h5 (by decide)
  refine ⟨MF', MBB', adj, DL, h1, ?_, h3, h6⟩
  rw [h2, h7]
  rfl


/-! ## Epilogue -/

theorem get?_split {α : Type} (l : List α) (p : Nat) (x : α) (h : l.get? p = some x) :
    l = l.take p ++ x :: l.drop (p + 1) := by
  induction l generalizing p with
  | nil => simp at h
  | cons y ys ih =>
    cases p with
    | zero =>
      simp only [List.get?_cons_zero, Option.some.injEq] at h
      simp [h]
    | succ q =>
      simp only [List.get?_cons_succ] at h
      simp only [List.take_succ_cons, List.drop_succ_cons, List.cons_append]
      rw [← ih q h]

theorem updateAt_of_get? {α : Type} (f : α → α) (l : List α) (p : Nat) (x : α)
    (h : l.get? p = some x) :
    updateAt f l p = l.take p ++ f x :: l.drop (p + 1) := by
  induction l generalizing p with
  | nil => simp at h
  | cons y ys ih =>
    cases p with
    | zero =>
      simp only [List.get?_cons_zero, Option.some.injEq] at h
      simp [updateAt, h]
    | succ q =>
      simp only [List.get?_cons_succ] at h
      simp only [updateAt, List.take_succ_cons, List.drop_succ_cons, List.cons_append]
      rw [ih q h]

/-- The walk never moves forward. -/
theorem skipTerminators_le (t : Nat → Bool) (l : List MachineInstr) (k : Nat) :
    skipTerminators t l k ≤ k := by
  induction k with
  | zero => simp [skipTerminators]
  | succ k ih =>
    unfold skipTerminators
    cases h : l.get? k with
    | none => simp
    | some PI =>
      simp only
      split
      · omega
      · omega

/-- Every instruction the walk has passed is a terminator. -/
theorem skipTerminators_passed (t : Nat → Bool) (l : List MachineInstr) (k : Nat) :
    ∀ (j : Nat) (M : MachineInstr), skipTerminators t l k < j → j < k → l.get? j = some M →
      isTerminator t M = true := by
  induction k with
  | zero => intro j M _ h; omega
  | succ k ih =>
    intro j M hj hk hM
    unfold skipTerminators at hj
    cases h : l.get? k with
    | none =>
      rw [h] at hj
      simp only at hj
      omega
    | some PI =>
      rw [h] at hj
      simp only at hj
      by_cases hT : isTerminator t PI = true
      · simp only [hT, Bool.not_true, Bool.false_eq_true, if_false] at hj
        by_cases hjk : j = k
        · subst hjk
          rw [h] at hM
          cases hM
          exact hT
        · exact ih j M hj (by omega) hM
      · simp only [hT, Bool.not_false, if_true] at hj
        omega

theorem findImmediate_none (ops : List MachineOperand) (k : Nat)
    (h : ∀ op ∈ ops, op.isImm = false) : findImmediate ops k = none := by
  induction ops generalizing k with
  | nil => rfl
  | cons p ps ih =>
    have hp : p.isImm = false := h p (List.mem_cons_self _ _)
    simp only [findImmediate, hp, Bool.false_eq_true, if_false]
    exact ih (k + 1) (fun op ho => h op (List.mem_cons_of_mem _ ho))

/-- A successful search splits the operands at the first immediate. -/
theorem findImmediate_some (ops : List MachineOperand) (k i : Nat)
    (h : findImmediate ops k = some i) :
    ∃ pre Imm rest, ops = pre ++ .Immediate Imm :: rest ∧
      (∀ op ∈ pre, op.isImm = false) ∧ i = k + pre.length := by
  induction ops generalizing k with
  | nil => simp [findImmediate] at h
  | cons p ps ih =>
    by_cases hp : p.isImm = true
    · cases p with
      | Immediate v =>
        simp only [findImmediate, hp, if_true, Option.some.injEq] at h
        exact ⟨[], v, ps, rfl, by simp, by simp [h]⟩
      | Register r d m x => simp [MachineOperand.isImm] at hp
      | FrameIndex v => simp [MachineOperand.isImm] at hp
      | Other n => simp [MachineOperand.isImm] at hp
    · have hp2 : p.isImm = false := by simpa using hp
      simp only [findImmediate, hp2, Bool.false_eq_true, if_false] at h
      obtain ⟨pre, Imm, rest, hops, hpre, hi⟩ := ih (k + 1) h
      refine ⟨p :: pre, Imm, rest, by simp [hops], ?_, ?_⟩
      · intro op hop
        rcases List.mem_cons.mp hop with rfl | hop
        · exact hp2
        · exact hpre op hop
      · simp only [List.length_cons]; omega

theorem isTerminator_ret (t : Nat → Bool) (M : MachineInstr) (h : M.opcode = .RET) :
    isTerminator t M = true := by
  simp [isTerminator, h]

theorem isTerminator_restore (t : Nat → Bool) (M : MachineInstr)
    (h : M.opcode = .MOV64rmm ∨ M.opcode = .MOV64rm) : isTerminator t M = false := by
  rcases h with h | h <;> simp [isTerminator, h]

/-- Every success of `emitEpilogue` has this shape: the block ends in `RET`;
with a zero callee-saved frame size the block is returned as it is; otherwise
the block is `pre ++ MI :: terms` with `terms` a nonempty run of terminators
and `MI` a restore, whose first immediate is the only thing rewritten. -/
theorem emitEpilogue_some (t : Nat → Bool) (MF : MachineFunction)
    (MBB MBB' : MachineBasicBlock) (h : emitEpilogue t MF MBB = some MBB') :
    (∃ Ret, MBB.instrs.getLast? = some Ret ∧ Ret.opcode = .RET) ∧
    (MF.calleeSavedFrameSize = 0 → MBB' = MBB) ∧
    (MF.calleeSavedFrameSize ≠ 0 → ∃ (pre : List MachineInstr) (MI : MachineInstr)
        (terms : List MachineInstr) (opsPre : List MachineOperand) (Imm : Int)
        (opsPost : List MachineOperand),
      MBB.instrs = pre ++ MI :: terms ∧ terms ≠ [] ∧
      (∀ T ∈ terms, isTerminator t T = true) ∧
      (MI.opcode = .MOV64rmm ∨ MI.opcode = .MOV64rm) ∧
      MI.operands = opsPre ++ .Immediate Imm :: opsPost ∧
      (∀ op ∈ opsPre, op.isImm = false) ∧
      MBB' = { MBB with instrs := pre ++
        { MI with operands := opsPre ++
          MachineOperand.Immediate (toInt64 (toUInt64 ((netLocalBytes MF : Int) + toUInt64 Imm))) ::
            opsPost } :: terms }) := by
  unfold emitEpilogue at h
  simp only [List.get?_eq_getElem?] at h
  cases hlast : MBB.instrs.getLast? with
  | none => simp [hlast] at h
  | some Ret =>
    simp only [hlast] at h
    by_cases hret : Ret.opcode = .RET
    · simp only [hret, ne_eq, not_true_eq_false, if_false] at h
      refine ⟨⟨Ret, rfl, hret⟩, ?_, ?_⟩
      · intro hF
        simp only [hF, not_true_eq_false, if_false, Option.some.injEq] at h
        exact h.symm
      · intro hF
        simp only [hF, not_false_eq_true, if_true] at h
        have hple := skipTerminators_le t MBB.instrs (MBB.instrs.length - 1)
        have hpassed := skipTerminators_passed t MBB.instrs (MBB.instrs.length - 1)
        generalize skipTerminators t MBB.instrs (MBB.instrs.length - 1) = p at h hple hpassed
        cases hget : MBB.instrs[p]? with
        | none => simp [hget] at h
        | some MI =>
          simp only [hget] at h
          by_cases hop : MI.opcode = .MOV64rmm ∨ MI.opcode = .MOV64rm
          · simp only [hop, not_true_eq_false, if_false] at h
            cases hfi : findImmediate MI.operands 0 with
            | none => simp [hfi] at h
            | some i =>
              simp only [hfi] at h
              obtain ⟨opsPre, Imm, opsPost, hops, hpre, hi⟩ :=
                findImmediate_some MI.operands 0 i hfi
              rw [Nat.zero_add] at hi
              subst hi
              have hgi := get?_append_length opsPre (MachineOperand.Immediate Imm) opsPost
              rw [← hops, List.get?_eq_getElem?] at hgi
              have hupd := updateAt_append
                (fun o : MachineOperand => o.ChangeToImmediate
                  (toInt64 (toUInt64 ((netLocalBytes MF : Int) + toUInt64 Imm))))
                opsPre (.Immediate Imm) opsPost
              rw [← hops] at hupd
              have hget2 : MBB.instrs.get? p = some MI := by
                rw [List.get?_eq_getElem?]; exact hget
              have hsplit := get?_split MBB.instrs p MI hget2
              simp only [hgi, Option.some.injEq] at h
              rw [updateAt_of_get? _ MBB.instrs p MI hget2] at h
              have hlast2 : MBB.instrs[MBB.instrs.length - 1]? = some Ret := by
                rw [← List.getLast?_eq_getElem?]; exact hlast
              have hpn : p ≠ MBB.instrs.length - 1 := by
                intro hpe
                rw [hpe, hlast2] at hget
                cases hget
                rcases hop with hop | hop <;> rw [hret] at hop <;> cases hop
              have hlen : MBB.instrs.length ≠ 0 := by
                intro h0
                rw [List.getElem?_eq_none (by omega)] at hlast2
                cases hlast2
              refine ⟨MBB.instrs.take p, MI, MBB.instrs.drop (p + 1), opsPre, Imm, opsPost,
                hsplit, ?_, ?_, hop, hops, hpre, ?_⟩
              · intro hnil
                have hl := congrArg List.length hnil
                simp only [List.length_drop, List.length_nil] at hl
                omega
              · intro T hT
                obtain ⟨j, hj⟩ := List.mem_iff_getElem?.mp hT
                rw [List.getElem?_drop] at hj
                by_cases hjl : p + 1 + j < MBB.instrs.length - 1
                · exact hpassed (p + 1 + j) T (by omega) hjl
                    (by rw [List.get?_eq_getElem?]; exact hj)
                · have hjn : p + 1 + j < MBB.instrs.length := by
                    by_contra hge
                    rw [List.getElem?_eq_none (by omega)] at hj
                    cases hj
                  have hje : p + 1 + j = MBB.instrs.length - 1 := by omega
                  rw [hje, hlast2] at hj
                  cases hj
                  exact isTerminator_ret t _ hret
              · rw [← h]
                simp only [MachineOperand.ChangeToImmediate, netLocalBytes, netStackSize] at hupd ⊢
                rw [hupd]
          · simp [hop] at h
    · simp [hret] at h

/-- The displacement `emitEpilogue` writes, `NumBytes + Imm` in `uint64_t`
converted to `int64_t`, is `Imm + ((S - F) - L)` as a 64-bit integer. -/
theorem epiloguePatch_eq (MF : MachineFunction) (Imm : Int) :
    toInt64 (toUInt64 ((netLocalBytes MF : Int) + toUInt64 Imm)) =
      toInt64 (Imm + ((MF.frameInfo.stackSize : Int) - MF.calleeSavedFrameSize -
        MF.target.offsetOfLocalArea)) := by
  apply toInt64_congr
  have hmod : (netLocalBytes MF : Int) ≡ (MF.frameInfo.stackSize : Int) -
      MF.calleeSavedFrameSize - MF.target.offsetOfLocalArea [ZMOD 2 ^ 64] := by
    unfold netLocalBytes netStackSize
    exact (toUInt64_modEq64 _).trans
      (Int.ModEq.sub (toUInt64_modEq64 _) (toUInt64_modEq64 _))
  refine (toUInt64_modEq64 _).trans ?_
  rw [add_comm]
  exact Int.ModEq.add (toUInt64_modEq64 _) hmod

/-- C12: on every returning block on which `emitEpilogue` succeeds, if the
callee-saved frame size `F` is nonzero the block is `pre ++ MI :: terms` with
`terms` the nonempty trailing run of terminators and `MI` a non-terminator, a
restore (`MOV64rmm` or `MOV64rm`); the first immediate operand of `MI` is
raised by `(S - F) - L` as a 64-bit immediate (exactly, whenever the sum is a
signed 64-bit value) and every other operand and instruction is kept; if `F`
is zero the block is kept as it is. -/
theorem emitEpilogue_patches (t : Nat → Bool) (MF : MachineFunction)
    (MBB MBB' : MachineBasicBlock) (h : emitEpilogue t MF MBB = some MBB') :
    (MF.calleeSavedFrameSize ≠ 0 → ∃ (pre : List MachineInstr) (MI : MachineInstr)
        (terms : List MachineInstr) (opsPre : List MachineOperand) (Imm : Int)
        (opsPost : List MachineOperand),
      MBB.instrs = pre ++ MI :: terms ∧ terms ≠ [] ∧
      (∀ T ∈ terms, isTerminator t T = true) ∧ isTerminator t MI = false ∧
      (MI.opcode = .MOV64rmm ∨ MI.opcode = .MOV64rm) ∧
      MI.operands = opsPre ++ .Immediate Imm :: opsPost ∧
      (∀ op ∈ opsPre, op.isImm = false) ∧
      MBB' = { MBB with instrs := pre ++
        { MI with operands := opsPre ++
          MachineOperand.Immediate (toInt64 (Imm + ((MF.frameInfo.stackSize : Int) -
            MF.calleeSavedFrameSize - MF.target.offsetOfLocalArea))) :: opsPost } :: terms } ∧
      (-2 ^ 63 ≤ Imm + ((MF.frameInfo.stackSize : Int) - MF.calleeSavedFrameSize -
          MF.target.offsetOfLocalArea) →
        Imm + ((MF.frameInfo.stackSize : Int) - MF.calleeSavedFrameSize -
          MF.target.offsetOfLocalArea) < 2 ^ 63 →
        MBB' = { MBB with instrs := pre ++
          { MI with operands := opsPre ++
            MachineOperand.Immediate (Imm + ((MF.frameInfo.stackSize : Int) -
              MF.calleeSavedFrameSize - MF.target.offsetOfLocalArea)) :: opsPost } :: terms })) ∧
    (MF.calleeSavedFrameSize = 0 → MBB' = MBB) := by
  obtain ⟨-, h0, h1⟩ := emitEpilogue_some t MF MBB MBB' h
  refine ⟨?_, h0⟩
  intro hF
  obtain ⟨pre, MI, terms, opsPre, Imm, opsPost, hsplit, hne, hterms, hop, hops, hpre, hres⟩ :=
    h1 hF
  rw [epiloguePatch_eq] at hres
  refine ⟨pre, MI, terms, opsPre, Imm, opsPost, hsplit, hne, hterms,
    isTerminator_restore t MI hop, hop, hops, hpre, hres, ?_⟩
  intro hlo hhi
  rw [hres, toInt64_eq_self hlo hhi]

/-- Witness of C12: in `spillOnlyFunction` (`S = F = 8`, `L = -160`) the
epilogue succeeds, turning the displacement 112 of the restore into 272; the
block splits into a restore followed by terminators. -/
theorem emitEpilogue_patches_witness :
    emitEpilogue (fun _ => false) spillOnlyFunction
        { instrs := [savedPush, savedPop, retInstr], liveIns := [] } =
      some { instrs := [savedPush, patchedPop, retInstr], liveIns := [] } ∧
    spillOnlyFunction.calleeSavedFrameSize ≠ 0 ∧
    ∃ (pre : List MachineInstr) (MI : MachineInstr) (terms : List MachineInstr),
      [savedPush, savedPop, retInstr] = pre ++ MI :: terms ∧ terms ≠ [] ∧
      (∀ T ∈ terms, isTerminator (fun _ => false) T = true) ∧
      isTerminator (fun _ => false) MI = false ∧
      (MI.opcode = .MOV64rmm ∨ MI.opcode = .MOV64rm) := by
  refine ⟨by decide, by decide, ?_⟩
  obtain ⟨pre, MI, terms, -, -, -, h1, h2, h3, h4, h5, -⟩ :=
    (emitEpilogue_patches (fun _ => false) spillOnlyFunction
      { instrs := [savedPush, savedPop, retInstr], liveIns := [] }
      { instrs := [savedPush, patchedPop, retInstr], liveIns := [] } (by decide)).1 (by decide)
  exact ⟨pre, MI, terms, h1, h2, h3, h4, h5⟩

/-- C13: `emitEpilogue` fails for every block whose last instruction is not
`RET` and, when the callee-saved frame size is nonzero, for every block in
which the instruction the backward walk over the terminators stops at is not a
`MOV64rmm` / `MOV64rm` restore or has no immediate operand. -/
theorem emitEpilogue_fails (t : Nat → Bool) (MF : MachineFunction) (MBB : MachineBasicBlock)
    (h : (∀ Ret, MBB.instrs.getLast? = some Ret → Ret.opcode ≠ .RET) ∨
      (MF.calleeSavedFrameSize ≠ 0 ∧
        ∀ MI, MBB.instrs.get? (skipTerminators t MBB.instrs (MBB.instrs.length - 1)) = some MI →
          ¬ (MI.opcode = .MOV64rmm ∨ MI.opcode = .MOV64rm) ∨
          ∀ op ∈ MI.operands, op.isImm = false)) :
    emitEpilogue t MF MBB = none := by
  unfold emitEpilogue
  cases hlast : MBB.instrs.getLast? with
  | none => rfl
  | some Ret =>
    simp only
    by_cases hret : Ret.opcode = .RET
    · rcases h with h | ⟨hF, h⟩
      · exact absurd hret (h Ret hlast)
      · simp only [hret, ne_eq, not_true_eq_false, if_false, hF, not_false_eq_true, if_true]
        cases hget : MBB.instrs.get? (skipTerminators t MBB.instrs (MBB.instrs.length - 1)) with
        | none => rfl
        | some MI =>
          simp only
          rcases h MI hget with hno | hno
          · simp only [hno, not_false_eq_true, if_true]
          · by_cases hop : MI.opcode = .MOV64rmm ∨ MI.opcode = .MOV64rm
            · simp only [hop, not_true_eq_false, if_false, findImmediate_none MI.operands 0 hno]
            · simp only [hop, not_false_eq_true, if_true]
    · simp only [ne_eq, hret, not_false_eq_true, if_true]

/-- Witness of C13: a block that is the `RET` alone, in `spillOnlyFunction`
whose callee-saved frame size is 8. -/
theorem emitEpilogue_fails_witness :
    emitEpilogue (fun _ => false) spillOnlyFunction { instrs := [retInstr], liveIns := [] } =
      none :=
  emitEpilogue_fails (fun _ => false) spillOnlyFunction { instrs := [retInstr], liveIns := [] }
    (Or.inr ⟨by decide, by
      intro MI hMI
      have e : MI = retInstr := by
        have h2 : ([retInstr] : List MachineInstr).get? 0 = some MI := hMI
        simpa using h2.symm
      subst e
      exact Or.inl (by decide)⟩)

/-! ## Call frame pseudo instructions -/

/-- C14: for a pseudo-instruction at position `I` whose operand 0 is the
immediate byte amount `Amt`, `eliminateCallFramePseudoInstr` fails if and only
if the function has no reserved call frame, that is, has variable-sized stack
objects, and `Amt` is nonzero; in every other case it succeeds and the block
afterwards is the original block without the instruction at `I`, nothing added
and nothing else changed. -/
theorem eliminateCallFramePseudoInstr_spec (MF : MachineFunction) (MBB : MachineBasicBlock)
    (I : Nat) (Old : MachineInstr) (Amt : Int)
    (hI : MBB.instrs.get? I = some Old)
    (hop : Old.operands.get? 0 = some (.Immediate Amt))
    (hlo : -2 ^ 63 ≤ Amt) (hhi : Amt < 2 ^ 63) :
    (eliminateCallFramePseudoInstr MF MBB I = none ↔
      (hasReservedCallFrame MF = false ∧ Amt ≠ 0)) ∧
    (hasReservedCallFrame MF = false ↔ MF.frameInfo.hasVarSizedObjects = true) ∧
    (¬ (hasReservedCallFrame MF = false ∧ Amt ≠ 0) →
      eliminateCallFramePseudoInstr MF MBB I =
        some { MBB with instrs := MBB.instrs.take I ++ MBB.instrs.drop (I + 1) } ∧
      MBB.instrs = MBB.instrs.take I ++ Old :: MBB.instrs.drop (I + 1)) := by
  have hamt : toUInt64 Amt = 0 ↔ Amt = 0 := by
    have h := toUInt64_cast Amt
    omega
  have hsplit := get?_split MBB.instrs I Old hI
  unfold eliminateCallFramePseudoInstr
  simp only [hI, hop, List.eraseIdx_eq_take_drop_succ]
  by_cases hres : hasReservedCallFrame MF = true
  · simp only [hres, Bool.not_true, Bool.false_eq_true, if_false]
    refine ⟨by simp, by simp [hasReservedCallFrame] at hres ⊢; exact hres, ?_⟩
    intro _
    exact ⟨trivial, hsplit⟩
  · have hres2 : hasReservedCallFrame MF = false := by simpa using hres
    simp only [hres2, Bool.not_false, if_true]
    refine ⟨?_, by simp [hasReservedCallFrame] at hres2 ⊢; exact hres2, ?_⟩
    · by_cases h0 : Amt = 0
      · have hz : toUInt64 Amt = 0 := hamt.2 h0
        subst h0
        simp [hz]
      · have hne : toUInt64 Amt ≠ 0 := fun h => h0 (hamt.1 h)
        simp [hne, h0]
    · intro hnot
      have h0 : Amt = 0 := by
        by_contra hne
        exact hnot ⟨trivial, hne⟩
      simp only [ne_eq, hamt.2 h0, not_true_eq_false, if_false, true_and]
      exact hsplit

/-- Witness of C14: in `allocaFunction`, which has variable-sized objects, a
call-frame setup of 8 bytes is rejected. -/
theorem eliminateCallFramePseudoInstr_spec_witness :
    eliminateCallFramePseudoInstr allocaFunction
        { instrs := [savedPush, adjCallStackDown 8, retInstr], liveIns := [] } 1 = none ↔
      (hasReservedCallFrame allocaFunction = false ∧ (8 : Int) ≠ 0) :=
  (eliminateCallFramePseudoInstr_spec allocaFunction
    { instrs := [savedPush, adjCallStackDown 8, retInstr], liveIns := [] } 1
    (adjCallStackDown 8) 8 rfl rfl (by norm_num) (by norm_num)).1

/-! ## The scan before callee-saved registers -/

theorem BitVector.set_true_iff (B : BitVector) (r x : Reg) :
    (B.set r) x = true ↔ (x = r ∨ B x = true) := by
  unfold BitVector.set
  split <;> simp_all

/-- The used-register vector after the scan, register by register. -/
theorem scan_usedPhysRegs (MF : MachineFunction) (r : Reg) :
    (processFunctionBeforeCalleeSavedScan MF).usedPhysRegs r = true ↔
      (MF.usedPhysRegs r = true ∨ (r = .R14D ∧ MF.frameInfo.hasCalls = true) ∨
        (r = .R15D ∧ (MF.frameInfo.objectIndexEnd ≠ 0 ∨
          MF.frameInfo.hasVarSizedObjects = true))) := by
  unfold processFunctionBeforeCalleeSavedScan
  dsimp only
  by_cases hc : MF.frameInfo.hasCalls = true <;>
    by_cases hcond : MF.frameInfo.objectIndexEnd ≠ 0 ∨ MF.frameInfo.hasVarSizedObjects = true
  · rw [if_pos hc, if_pos hcond]
    simp only [BitVector.set_true_iff]
    tauto
  · rw [if_pos hc, if_neg hcond]
    simp only [BitVector.set_true_iff]
    tauto
  · rw [if_neg hc, if_pos hcond]
    simp only [BitVector.set_true_iff]
    tauto
  · rw [if_neg hc, if_neg hcond]
    tauto

theorem scan_rest (MF : MachineFunction) :
    (processFunctionBeforeCalleeSavedScan MF).blocks = MF.blocks ∧
    (processFunctionBeforeCalleeSavedScan MF).calleeSavedFrameSize = MF.calleeSavedFrameSize := by
  unfold processFunctionBeforeCalleeSavedScan
  dsimp only
  by_cases hc : MF.frameInfo.hasCalls = true <;>
    by_cases hcond : MF.frameInfo.objectIndexEnd ≠ 0 ∨ MF.frameInfo.hasVarSizedObjects = true
  · rw [if_pos hc, if_pos hcond]; exact ⟨rfl, rfl⟩
  · rw [if_pos hc, if_neg hcond]; exact ⟨rfl, rfl⟩
  · rw [if_neg hc, if_pos hcond]; exact ⟨rfl, rfl⟩
  · rw [if_neg hc, if_neg hcond]; exact ⟨rfl, rfl⟩

/-- The scan never reads the number of fixed objects. -/
theorem scan_fixedObjects (MF : MachineFunction) (n : Nat) :
    (processFunctionBeforeCalleeSavedScan
        { MF with frameInfo := { MF.frameInfo with numFixedObjects := n } }).usedPhysRegs =
      (processFunctionBeforeCalleeSavedScan MF).usedPhysRegs := by
  funext r
  have h1 := scan_usedPhysRegs MF r
  have h2 := scan_usedPhysRegs
    { MF with frameInfo := { MF.frameInfo with numFixedObjects := n } } r
  simp only at h2
  rw [← h1] at h2
  cases hu : (processFunctionBeforeCalleeSavedScan MF).usedPhysRegs r
  · cases hv : (processFunctionBeforeCalleeSavedScan
        { MF with frameInfo := { MF.frameInfo with numFixedObjects := n } }).usedPhysRegs r
    · rfl
    · rw [hu] at h2
      exact absurd (h2.1 hv) (by simp)
  · exact h2.2 hu

/-- C15 fails as stated: `fixedOnlyFunction` owns a stack object, the fixed
object of index -1, and nothing else; the scan leaves `R15D` unmarked. -/
theorem processFunctionBeforeCalleeSavedScan_counterexample :
    fixedOnlyFunction.frameInfo.numObjects = 1 ∧
    fixedOnlyFunction.frameInfo.numFixedObjects = 1 ∧
    fixedOnlyFunction.frameInfo.objectIndexEnd = 0 ∧
    fixedOnlyFunction.frameInfo.hasVarSizedObjects = false ∧
    (processFunctionBeforeCalleeSavedScan fixedOnlyFunction).usedPhysRegs .R15D = false := by
  refine ⟨by decide, by decide, by decide, by decide, by decide⟩

/-- C15 as amended: `processFunctionBeforeCalleeSavedScan` only adds to the
used-register set: every register used before is used after; `R14D` is used
after exactly when it was used before or the function has calls; `R15D` is used
after exactly when it was used before or the function has an object of
non-negative index (`getObjectIndexEnd() != 0`; fixed objects do not count: the
result does not depend on their number) or variable-sized objects; every other
register keeps its state, and nothing else of the function changes. -/
theorem processFunctionBeforeCalleeSavedScan_spec (MF : MachineFunction) :
    (∀ r : Reg, MF.usedPhysRegs r = true →
      (processFunctionBeforeCalleeSavedScan MF).usedPhysRegs r = true) ∧
    ((processFunctionBeforeCalleeSavedScan MF).usedPhysRegs .R14D = true ↔
      (MF.usedPhysRegs .R14D = true ∨ MF.frameInfo.hasCalls = true)) ∧
    ((processFunctionBeforeCalleeSavedScan MF).usedPhysRegs .R15D = true ↔
      (MF.usedPhysRegs .R15D = true ∨ MF.frameInfo.objectIndexEnd ≠ 0 ∨
        MF.frameInfo.hasVarSizedObjects = true)) ∧
    (∀ r : Reg, r ≠ .R14D → r ≠ .R15D →
      (processFunctionBeforeCalleeSavedScan MF).usedPhysRegs r = MF.usedPhysRegs r) ∧
    (processFunctionBeforeCalleeSavedScan MF).blocks = MF.blocks ∧
    (processFunctionBeforeCalleeSavedScan MF).calleeSavedFrameSize = MF.calleeSavedFrameSize ∧
    (∀ n : Nat, (processFunctionBeforeCalleeSavedScan
        { MF with frameInfo := { MF.frameInfo with numFixedObjects := n } }).usedPhysRegs =
      (processFunctionBeforeCalleeSavedScan MF).usedPhysRegs) := by
  refine ⟨fun r hr => ?_, ?_, ?_, fun r h14 h15 => ?_, (scan_rest MF).1, (scan_rest MF).2,
    fun n => scan_fixedObjects MF n⟩
  · exact (scan_usedPhysRegs MF r).2 (Or.inl hr)
  · rw [scan_usedPhysRegs]
    simp
  · rw [scan_usedPhysRegs]
    simp
  · have h := scan_usedPhysRegs MF r
    simp only [h14, h15, false_and, or_false] at h
    cases hu : MF.usedPhysRegs r
    · cases hu2 : (processFunctionBeforeCalleeSavedScan MF).usedPhysRegs r
      · rfl
      · rw [hu] at h
        exact absurd (h.1 hu2) (by simp)
    · exact h.2 hu

/-! ## Callee-saved and reserved registers -/

/-- The reserved set, register by register. -/
theorem getReservedRegs_true_iff (MF : MachineFunction) (r : Reg) :
    getReservedRegs MF r = true ↔
      (r = .R14D ∨ r = .R15D ∨ (r = .R11D ∧ hasFP MF = true)) := by
  unfold getReservedRegs
  by_cases hfp : hasFP MF = true
  · rw [if_pos hfp]
    simp only [BitVector.set_true_iff]
    simp [hfp]
    tauto
  · rw [if_neg hfp]
    simp only [BitVector.set_true_iff]
    simp [hfp]
    tauto

/-- C16 fails as stated: the link register `R14D`, which is not the frame
pointer, is in the callee-saved list and in the reserved set of
`emptyFrameFunction` (as of every function). -/
theorem calleeSaved_reserved_counterexample :
    Reg.R14D ≠ Reg.R11D ∧ Reg.R14D ∈ getCalleeSavedRegs ∧
      getReservedRegs emptyFrameFunction Reg.R14D = true := by
  refine ⟨by decide, by decide, by decide⟩

/-- C16 as amended: for every function, a physical register is both in the
callee-saved register list and in the reserved set exactly when it is the link
register `R14D`, the stack pointer `R15D`, or the frame pointer `R11D` of a
function that needs a frame pointer; every other register is in at most one of
the two. -/
theorem calleeSaved_reserved_iff (MF : MachineFunction) (r : Reg) :
    (r ∈ getCalleeSavedRegs ∧ getReservedRegs MF r = true) ↔
      (r = .R14D ∨ r = .R15D ∨ (r = .R11D ∧ hasFP MF = true)) := by
  rw [getReservedRegs_true_iff]
  constructor
  · intro h
    exact h.2
  · intro h
    refine ⟨?_, h⟩
    rcases h with rfl | rfl | ⟨rfl, -⟩ <;> decide

/-! ## The adjuster on a concrete request -/

/-- The chunks of `emitSPUpdate` in closed form: as many full chunks as fit,
then the remainder if there is one. -/
theorem emitSPUpdateLoop_chunks (DL : DebugLoc) (isSub : Bool) (Offset : Nat) :
    ∀ (MBB : List MachineInstr) (MBBI : Nat),
      emitSPUpdateLoop DL isSub MBB MBBI Offset =
        (MBB.take MBBI ++
          (List.replicate (Offset / Chunk) Chunk ++
            (if Offset % Chunk = 0 then [] else [Offset % Chunk])).map (spAdd DL isSub) ++
          MBB.drop MBBI,
         MBBI + (Offset / Chunk + (if Offset % Chunk = 0 then 0 else 1))) := by
  have hC : Chunk = 32767 := by decide
  induction Offset using Nat.strong_induction_on with
  | _ Offset ih =>
    intro MBB MBBI
    rw [emitSPUpdateLoop]
    by_cases h0 : Offset = 0
    · have hd : Offset / Chunk = 0 := by rw [h0]; exact Nat.zero_div _
      have hm : Offset % Chunk = 0 := by rw [h0]; exact Nat.zero_mod _
      rw [if_pos h0, hd, hm, if_pos rfl, if_pos rfl]
      simp
    · simp only [h0, if_false]
      by_cases hgt : Offset > Chunk
      · simp only [hgt, if_true]
        rw [ih (Offset - Chunk) (by omega), take_succ_insertBefore, drop_succ_insertBefore]
        have hd : Offset / Chunk = (Offset - Chunk) / Chunk + 1 := by
          rw [hC] at hgt ⊢; omega
        have hm : (Offset - Chunk) % Chunk = Offset % Chunk := by
          rw [hC] at hgt ⊢; omega
        rw [hd, hm, List.replicate_succ, List.cons_append]
        generalize (List.replicate ((Offset - Chunk) / Chunk) Chunk ++
          if Offset % Chunk = 0 then [] else [Offset % Chunk]) = V
        generalize (Offset - Chunk) / Chunk = q
        generalize (if Offset % Chunk = 0 then 0 else 1) = e
        generalize spAdd DL isSub = f
        generalize Chunk = c
        have h1 : MBBI + 1 + (q + e) = MBBI + (q + 1 + e) := by omega
        rw [h1, List.map_cons, List.append_assoc (List.take MBBI MBB), List.singleton_append]
      · simp only [hgt, if_false]
        rw [ih (Offset - Offset) (by omega), take_succ_insertBefore, drop_succ_insertBefore]
        have hz : Offset - Offset = 0 := Nat.sub_self _
        have hzd : (0 : Nat) / Chunk = 0 := Nat.zero_div _
        have hzm : (0 : Nat) % Chunk = 0 := Nat.zero_mod _
        rw [hz, hzd, hzm, if_pos rfl, if_pos rfl]
        by_cases heq : Offset = Chunk
        · have hd : Offset / Chunk = 1 := by rw [heq, hC]
          have hm : Offset % Chunk = 0 := by rw [heq, hC]
          rw [hd, hm, if_pos rfl, if_pos rfl]
          rw [heq]
          generalize spAdd DL isSub = f
          generalize Chunk = c
          simp
        · have hd : Offset / Chunk = 0 := by
            rw [hC] at hgt heq ⊢; omega
          have hm : Offset % Chunk = Offset := by
            rw [hC] at hgt heq ⊢; omega
          rw [hd, hm, if_neg h0, if_neg h0]
          generalize spAdd DL isSub = f
          simp

/-- What `emitSPUpdate` does for a decrease of 100000 bytes: three adds of
`-32767` and one of `-1699`. -/
theorem emitSPUpdate_100000 (MBB : List MachineInstr) (MBBI : Nat) :
    emitSPUpdate MBB MBBI (-100000) =
      (MBB.take MBBI ++
        [spAdjust (debugLocAt MBB MBBI) (-32767), spAdjust (debugLocAt MBB MBBI) (-32767),
          spAdjust (debugLocAt MBB MBBI) (-32767), spAdjust (debugLocAt MBB MBBI) (-1699)] ++
        MBB.drop MBBI, MBBI + 4) := by
  have hoff : toUInt64 (toInt64 (-(-100000))) = 100000 := by decide
  have hsub : decide ((-100000 : Int) < 0) = true := by decide
  have hd : 100000 / Chunk = 3 := by decide
  have hm : 100000 % Chunk = 1699 := by decide
  have hC : Chunk = 32767 := by decide
  unfold emitSPUpdate
  simp only [hsub, if_true, hoff]
  rw [emitSPUpdateLoop_chunks, hd, hm, hC]
  have e1 := spAdd_eq (debugLocAt MBB MBBI) true 32767 (by norm_num)
  have e2 := spAdd_eq (debugLocAt MBB MBBI) true 1699 (by norm_num)
  simp only [if_true] at e1 e2
  simp [List.replicate, e1, e2]

/-- C17 fails as stated: for a decrease of 100000 bytes the fourth instruction
has magnitude 1699, not 4699 (and `32767 * 3 + 4699` is 103000, not
100000). -/
theorem emitSPUpdate_100000_counterexample :
    (emitSPUpdate [] 0 (-100000)).1.map (fun MI => MI.imms) =
        [[-32767], [-32767], [-32767], [-1699]] ∧
      (1699 : Int) ≠ 4699 ∧ (32767 * 3 + 4699 : Int) ≠ 100000 := by
  refine ⟨?_, by decide, by decide⟩
  rw [emitSPUpdate_100000]
  decide

/-- C17 as amended: for a requested stack-pointer decrease of 100000 bytes
(`NumBytes = -100000`) `emitSPUpdate` inserts exactly 4 instructions at the
iterator, three of magnitude 32767 followed by one of magnitude 1699, all
negative, whose magnitudes sum to exactly 100000. -/
theorem emitSPUpdate_100000_four (MBB : List MachineInstr) (MBBI : Nat) :
    emitSPUpdate MBB MBBI (-100000) =
        (MBB.take MBBI ++
          [spAdjust (debugLocAt MBB MBBI) (-32767), spAdjust (debugLocAt MBB MBBI) (-32767),
            spAdjust (debugLocAt MBB MBBI) (-32767), spAdjust (debugLocAt MBB MBBI) (-1699)] ++
          MBB.drop MBBI, MBBI + 4) ∧
      (32767 + 32767 + 32767 + 1699 : Int) = 100000 ∧
      immSum [spAdjust (debugLocAt MBB MBBI) (-32767), spAdjust (debugLocAt MBB MBBI) (-32767),
        spAdjust (debugLocAt MBB MBBI) (-32767), spAdjust (debugLocAt MBB MBBI) (-1699)] =
          -100000 := by
  refine ⟨emitSPUpdate_100000 MBB MBBI, by norm_num, ?_⟩
  simp [immSum, spAdjust, MachineInstr.imms, MachineOperand.getImm]

/-! ## Displacements are not range-checked -/

/-- C18: `eliminateFrameIndex` checks no range: resolving `nearLoad` (frame
index 0, displacement 0) in `bigFrameFunction`, whose stack is `2^20` bytes,
succeeds and writes the displacement 1048896, outside the signed 20-bit range
`[-2^19, 2^19 - 1]`. -/
theorem eliminateFrameIndex_unchecked :
    ∃ (MF : MachineFunction) (MI MI' : MachineInstr) (d : Int),
      MI.operands.get? 1 = some (.FrameIndex 0) ∧
      eliminateFrameIndex MF MI 0 = some MI' ∧
      MI'.operands.get? 2 = some (.Immediate d) ∧
      ¬ (-2 ^ 19 ≤ d ∧ d ≤ 2 ^ 19 - 1) :=
  ⟨bigFrameFunction, nearLoad,
    { nearLoad with operands := [.Register .R6D true false false,
      .Register .R15D false false false, .Immediate 1048896, .Other 0] },
    1048896, by decide, by decide, by decide, by decide⟩

/-! ## Fixed objects and the reduced stack size -/

/-- C19: for a negative stack object index, with `E = (S - F) mod 2^64` the
stack size reduced by the callee-saved frame size, `getFrameIndexOffset` tests
`E`, not `S`: it returns `O + A + E - L` when `E = 0` and `O + A + E - 2L` when
`E ≠ 0`, truncated to a signed 32-bit integer; for 64-bit `S` and `F`, `E = 0`
exactly when `S = F`. -/
theorem getFrameIndexOffset_reducedSize (MF : MachineFunction) (FI : Int) (hFI : FI < 0)
    (hS : MF.frameInfo.stackSize < 2 ^ 64) (hF : MF.calleeSavedFrameSize < 2 ^ 64) :
    (toUInt64 ((MF.frameInfo.stackSize : Int) - MF.calleeSavedFrameSize) = 0 ↔
      MF.frameInfo.stackSize = MF.calleeSavedFrameSize) ∧
    (toUInt64 ((MF.frameInfo.stackSize : Int) - MF.calleeSavedFrameSize) = 0 →
      getFrameIndexOffset MF FI =
        toInt32 (MF.frameInfo.objectOffset FI + MF.frameInfo.offsetAdjustment +
          toUInt64 ((MF.frameInfo.stackSize : Int) - MF.calleeSavedFrameSize) -
          MF.target.offsetOfLocalArea)) ∧
    (toUInt64 ((MF.frameInfo.stackSize : Int) - MF.calleeSavedFrameSize) ≠ 0 →
      getFrameIndexOffset MF FI =
        toInt32 (MF.frameInfo.objectOffset FI + MF.frameInfo.offsetAdjustment +
          toUInt64 ((MF.frameInfo.stackSize : Int) - MF.calleeSavedFrameSize) -
          2 * MF.target.offsetOfLocalArea)) := by
  have key := getFrameIndexOffset_eq MF FI
    (toUInt64 ((MF.frameInfo.stackSize : Int) - MF.calleeSavedFrameSize)) (by simp [hFI])
  refine ⟨?_, ?_, ?_⟩
  · have h := toUInt64_cast ((MF.frameInfo.stackSize : Int) - MF.calleeSavedFrameSize)
    omega
  · intro hE
    rw [key, if_pos hE]
    congr 1
    ring
  · intro hE
    rw [key, if_neg hE]
    congr 1
    ring

/-- Witness of C19: in `savedOnlyFunction` the stack size 8 is not zero but
equals the callee-saved frame size, so the fixed object of index -1 resolves
to `0 + 0 + 0 - (-160)`. -/
theorem getFrameIndexOffset_reducedSize_witness :
    (-1 : Int) < 0 ∧ savedOnlyFunction.frameInfo.stackSize ≠ 0 ∧
      toUInt64 ((savedOnlyFunction.frameInfo.stackSize : Int) -
        savedOnlyFunction.calleeSavedFrameSize) = 0 ∧
      getFrameIndexOffset savedOnlyFunction (-1) = toInt32 (0 + 0 + (0 : Nat) - (-160)) := by
  refine ⟨by decide, by decide, by decide, ?_⟩
  have h := (getFrameIndexOffset_reducedSize savedOnlyFunction (-1) (by decide) (by decide)
    (by decide)).2.1 (by decide)
  rw [h]
  decide

/-! ## Prologue against epilogue -/

/-- C20 at its failing input: in `spillOnlyFunction` (`S = F = 8`, `L = -160`)
`emitPrologue` leaves the entry block as it is, lowering the stack pointer by
no byte, while `emitEpilogue` raises the displacement of the restore from 112
to 272, by 160 bytes. -/
theorem prologue_epilogue_mismatch :
    (emitPrologue spillOnlyFunction).map (fun MF => MF.blocks) =
        some [{ instrs := [savedPush, savedPop, retInstr], liveIns := [] }] ∧
      emitEpilogue (fun _ => false) spillOnlyFunction
          { instrs := [savedPush, savedPop, retInstr], liveIns := [] } =
        some { instrs := [savedPush, patchedPop, retInstr], liveIns := [] } ∧
      savedPop.imms = [112] ∧ patchedPop.imms = [272] ∧
      spillOnlyFunction.calleeSavedFrameSize ≠ 0 := by
  refine ⟨by decide, by decide, by decide, by decide, by decide⟩

end SystemZ
